import Mathlib

/-!
# BMP codec of `img_lib` (`ImgLib/bmp_image.cpp`)

A shallow embedding of `GetBMPStride`, `SaveBMP` and `LoadBMP`, and theorems
about the byte layout they write and read.

Conventions of the embedding
* A byte is a `Fin 256`; a file is a `List Byte`.
* C++ `int` / `std::int32_t` values are `Int`s; every arithmetic operation on
  them is followed by `wrapI32` (two's complement wrap-around), conversions to
  `std::uint32_t` by `wrapU32`.
* A C++ exception or an access outside a `std::vector` leaves the function
  without a return value: the embedded functions return `Option`, and `none`
  stands for that abnormal termination.
* Memory is not a resource of the model: the allocation of an image or of a
  row buffer of non-negative size always succeeds.
* The host is little-endian and the two header structs are packed, as the
  file format requires.
-/

namespace img_lib

/-- One octet. -/
abbrev Byte := Fin 256

/-- Two's complement wrap-around of an integer into `std::int32_t`. -/
def wrapI32 (z : Int) : Int :=
  (z + 2147483648) % 4294967296 - 2147483648

/-- Conversion of an integer to `std::uint32_t` (reduction modulo `2^32`). -/
def wrapU32 (z : Int) : Nat :=
  (z % 4294967296).toNat

/-- The low octet of a natural number. -/
def lowByte (n : Nat) : Byte :=
  ⟨n % 256, Nat.mod_lt n (by decide)⟩

/-- The `k` low octets of `n`, least significant first: the in-memory image of
an unsigned field of `k` bytes on a little-endian host. -/
def leBytes : Nat → Nat → List Byte
  | 0, _ => []
  | k + 1, n => lowByte n :: leBytes k (n / 256)

/-- The unsigned value of a little-endian octet sequence. -/
def leValue : List Byte → Nat
  | [] => 0
  | b :: bs => b.val + 256 * leValue bs

/-- The field of `k` bytes at offset `off` of a byte sequence, read as an
unsigned little-endian number; bytes beyond the end read as zero. -/
def fieldAt (bytes : List Byte) (off k : Nat) : Nat :=
  leValue ((List.range k).map (fun i => bytes.getD (off + i) 0))

/-- Reinterpretation of an unsigned 32-bit value as `std::int32_t`. -/
def toI32 (u : Nat) : Int :=
  if u < 2147483648 then (u : Int) else (u : Int) - 4294967296

/-- The function `GetBMPStride`: `4 * ((width * 3 + 3) / 4)` in 32-bit signed
arithmetic; `/` truncates towards zero. -/
def GetBMPStride (width : Int) : Int :=
  wrapI32 (4 * Int.tdiv (wrapI32 (wrapI32 (width * 3) + 3)) 4)

/-! ## The pixel buffer (external collaborator) -/

/-- Modelled from the spec: the colour type `Color` declared in `image.h`;
a pixel is `{r, g, b}`, each channel one byte. -/
structure Color where
  r : Byte
  g : Byte
  b : Byte
deriving DecidableEq, Repr

/-- Modelled from the spec: `Color::Black()`, the solid black default fill. -/
def Color.Black : Color := ⟨0, 0, 0⟩

/-- Modelled from the spec: the class `Image` declared in `image.h`. It
exposes `width() -> int`, `height() -> int` and `row(y)`; `pixels y x` is
`GetLine(y)[x]`. Width and height are C++ `int`s that are never negative, so
they range over `[0, 2^31)`. -/
structure Image where
  width : Nat
  height : Nat
  pixels : Nat → Nat → Color
  width_lt : width < 2147483648
  height_lt : height < 2147483648

/-- Modelled from the spec: the default-constructed `Image`, the designated
empty value that `LoadBMP` returns on failure. -/
def Image.empty : Image :=
  ⟨0, 0, fun _ _ => Color.Black, by decide, by decide⟩

/-- Modelled from the spec: the constructor `Image(width, height, fill)`; its
`int` arguments are brought into the range of the fields. -/
def Image.new (w h : Int) (fill : Color) : Image :=
  ⟨w.toNat % 2147483648, h.toNat % 2147483648, fun _ _ => fill,
    Nat.mod_lt _ (by decide), Nat.mod_lt _ (by decide)⟩

/-- An assignment through `GetLine(y)[x]`: the pixel at row `y`, column `x` is
replaced by `f` of its old value. -/
def Image.modify (img : Image) (y x : Nat) (f : Color → Color) : Image :=
  { img with
    pixels := fun y1 x1 =>
      if y1 = y ∧ x1 = x then f (img.pixels y1 x1) else img.pixels y1 x1 }

/-! ## Streams -/

/-- A `std::ofstream` that was opened successfully. `accepts n` tells whether
the device can hold a file of `n` bytes; a write that would exceed it fails and
sets `badbit`. -/
structure OFStream where
  accepts : Nat → Bool
  data : List Byte := []
  badbit : Bool := false

/-- The call `ofs.write(p, n)`: nothing happens on a stream that has failed
before. -/
def OFStream.write (s : OFStream) (bs : List Byte) : OFStream :=
  if s.badbit then s
  else if s.accepts (s.data.length + bs.length) then { s with data := s.data ++ bs }
  else { s with badbit := true }

/-- A `std::ifstream` that was opened successfully on a file. `seekBeyondEnd`
tells whether the file buffer of the platform accepts a seek to a position
beyond the end of the file. -/
structure IFStream where
  file : List Byte
  seekBeyondEnd : Bool
  pos : Nat := 0
  failbit : Bool := false
  eofbit : Bool := false
  gcount : Nat := 0

/-- The call `ifs.read(p, n)`: returns the bytes stored at `p`. A stream that
is not good extracts nothing and sets `failbit`; a stream that ends before `n`
bytes were extracted sets `eofbit` and `failbit`. -/
def IFStream.read (s : IFStream) (n : Nat) : List Byte × IFStream :=
  if s.failbit || s.eofbit then ([], { s with failbit := true, gcount := 0 })
  else
    let got := (s.file.drop s.pos).take n
    if got.length < n then
      (got, { s with pos := s.pos + got.length, failbit := true, eofbit := true,
                     gcount := got.length })
    else (got, { s with pos := s.pos + n, gcount := n })

/-- The call `ifs.seekg(p)`: clears `eofbit`, then moves the read position
unless the stream has failed; a position the file buffer cannot reach sets
`failbit`. -/
def IFStream.seekg (s : IFStream) (p : Nat) : IFStream :=
  let s1 := { s with eofbit := false }
  if s1.failbit then s1
  else if p ≤ s1.file.length || s1.seekBeyondEnd then { s1 with pos := p }
  else { s1 with failbit := true }

/-! ## The two packed headers -/

/-- The struct `BitmapFileHeader`. The macro `PACKED_STRUCT_BEGIN` of
`pack_defines.h` is modelled from the spec: no padding between fields. -/
structure BitmapFileHeader where
  bm_type : Nat := 0x4D42
  file_size : Nat
  reserved : Fin 4 → Byte
  padding : Nat

/-- The struct `BitmapInfoHeader`, packed like `BitmapFileHeader`. -/
structure BitmapInfoHeader where
  header_size : Nat := 40
  img_width : Int
  img_height : Int
  planes : Nat := 1
  bits_per_pixel : Nat := 24
  compression : Nat := 0
  data_size : Nat
  horizontal_resolution : Int := 11811
  vertical_resolution : Int := 11811
  used_colors_count : Int := 0
  significant_colors_count : Int := 0x1000000

/-- The value of `sizeof(BitmapFileHeader)`; the struct is packed. -/
def BitmapFileHeader.sizeof : Nat := 14

/-- The value of `sizeof(BitmapInfoHeader)`; the struct is packed. -/
def BitmapInfoHeader.sizeof : Nat := 40

/-- The object representation of a `BitmapFileHeader` on a little-endian host,
which is what `ofs.write(reinterpret_cast<char*>(&h), sizeof h)` transmits. -/
def BitmapFileHeader.toBytes (h : BitmapFileHeader) : List Byte :=
  leBytes 2 h.bm_type ++ leBytes 4 h.file_size ++ List.ofFn h.reserved ++ leBytes 4 h.padding

/-- The object representation of a `BitmapInfoHeader`. -/
def BitmapInfoHeader.toBytes (h : BitmapInfoHeader) : List Byte :=
  leBytes 4 h.header_size ++ leBytes 4 (wrapU32 h.img_width) ++ leBytes 4 (wrapU32 h.img_height)
    ++ leBytes 2 h.planes ++ leBytes 2 h.bits_per_pixel ++ leBytes 4 h.compression
    ++ leBytes 4 h.data_size ++ leBytes 4 (wrapU32 h.horizontal_resolution)
    ++ leBytes 4 (wrapU32 h.vertical_resolution) ++ leBytes 4 (wrapU32 h.used_colors_count)
    ++ leBytes 4 (wrapU32 h.significant_colors_count)

/-- A value-initialised (`{}`, all zero) `BitmapFileHeader` whose leading bytes
were overwritten by the bytes `bs` that `ifs.read` extracted. -/
def BitmapFileHeader.ofBytes (bs : List Byte) : BitmapFileHeader :=
  { bm_type := fieldAt bs 0 2
    file_size := fieldAt bs 2 4
    reserved := fun i => bs.getD (6 + i.val) 0
    padding := fieldAt bs 10 4 }

/-- A value-initialised `BitmapInfoHeader` overwritten by the bytes `bs`. -/
def BitmapInfoHeader.ofBytes (bs : List Byte) : BitmapInfoHeader :=
  { header_size := fieldAt bs 0 4
    img_width := toI32 (fieldAt bs 4 4)
    img_height := toI32 (fieldAt bs 8 4)
    planes := fieldAt bs 12 2
    bits_per_pixel := fieldAt bs 14 2
    compression := fieldAt bs 16 4
    data_size := fieldAt bs 20 4
    horizontal_resolution := toI32 (fieldAt bs 24 4)
    vertical_resolution := toI32 (fieldAt bs 28 4)
    used_colors_count := toI32 (fieldAt bs 32 4)
    significant_colors_count := toI32 (fieldAt bs 36 4) }

/-! ## `SaveBMP` -/

/-- The assignment `buffer[i] = v` on a `std::vector`; an index outside the
vector has no defined behaviour. Indices are computed as `x * 3 + k` in `int`;
as the vector is shorter than `2^31`, such an index is inside the vector
exactly if the mathematical value `x * 3 + k` is. -/
def vecSet (buffer : List Byte) (i : Nat) (v : Byte) : Option (List Byte) :=
  if i < buffer.length then some (buffer.set i v) else none

/-- The inner loop of `SaveBMP`, `for (int x = ...; x < width; ++x)`, with `n`
iterations left: the pixel `line[x]` is stored as blue, green, red. -/
def SaveBMP.fill (line : Nat → Color) : Nat → Nat → List Byte → Option (List Byte)
  | 0, _, buffer => some buffer
  | n + 1, x, buffer =>
    (vecSet buffer (x * 3 + 0) (line x).b).bind fun b1 =>
    (vecSet b1 (x * 3 + 1) (line x).g).bind fun b2 =>
    (vecSet b2 (x * 3 + 2) (line x).r).bind fun b3 =>
    SaveBMP.fill line n (x + 1) b3

/-- The outer loop of `SaveBMP`, `for (int y = height - 1; y >= 0; y--)`, with
rows `n - 1, ..., 0` left. The row buffer is the same vector for all rows. -/
def SaveBMP.rows (image : Image) : Nat → List Byte → OFStream → Option OFStream
  | 0, _, ofs => some ofs
  | y + 1, buffer, ofs =>
    (SaveBMP.fill (image.pixels y) image.width 0 buffer).bind fun buffer1 =>
    SaveBMP.rows image y buffer1 (ofs.write buffer1)

/-- What a call of `SaveBMP` leaves behind: the returned `bool` and the bytes
that reached the file. -/
structure SaveResult where
  ok : Bool
  written : List Byte
deriving DecidableEq

/-- The function `SaveBMP`. `sink` is `none` if the file cannot be opened, else
the device behind the opened stream. `reserved` is the indeterminate content of
the field `reserved` of the default-initialised local `bitmap_file_header`,
which the function never assigns. The result is `none` if the function does not
return: `std::vector<char> buffer(bmp_stride)` throws for a negative
`bmp_stride`, and a store outside the row buffer has no defined behaviour. -/
def SaveBMP (sink : Option (Nat → Bool)) (reserved : Fin 4 → Byte) (image : Image) :
    Option SaveResult :=
  match sink with
  | none => some ⟨false, []⟩
  | some device =>
    let ofs : OFStream := { accepts := device }
    let width : Int := image.width
    let height : Int := image.height
    let bmp_stride : Int := GetBMPStride width
    let padding : Nat := BitmapFileHeader.sizeof + BitmapInfoHeader.sizeof
    let file_size : Nat := wrapU32 ((padding : Int) + wrapI32 (bmp_stride * height))
    let bitmap_file_header : BitmapFileHeader :=
      { file_size := file_size, reserved := reserved, padding := padding }
    let ofs := ofs.write bitmap_file_header.toBytes
    let bitmap_info_header : BitmapInfoHeader :=
      { img_width := width, img_height := height,
        data_size := wrapU32 (wrapI32 (bmp_stride * height)) }
    let ofs := ofs.write bitmap_info_header.toBytes
    if bmp_stride < 0 then none
    else
      (SaveBMP.rows image image.height (List.replicate bmp_stride.toNat 0) ofs).bind fun ofs =>
      some ⟨true, ofs.data⟩

/-! ## `LoadBMP` -/

/-- The inner loop of `LoadBMP` for row `y`, with `n` iterations left. Reading
`buffer[i]` outside the vector has no defined behaviour. -/
def LoadBMP.fill (buffer : List Byte) (y : Nat) : Nat → Nat → Image → Option Image
  | 0, _, result => some result
  | n + 1, x, result =>
    buffer[x * 3 + 0]?.bind fun vb =>
    buffer[x * 3 + 1]?.bind fun vg =>
    buffer[x * 3 + 2]?.bind fun vr =>
    LoadBMP.fill buffer y n (x + 1)
      (((result.modify y x fun c => { c with b := vb }).modify y x
        fun c => { c with g := vg }).modify y x fun c => { c with r := vr })

/-- The outer loop of `LoadBMP`, `for (y = height - 1; y >= 0; --y)`, with rows
`n - 1, ..., 0` left; a short read returns the empty image. -/
def LoadBMP.rows (width row_size : Nat) : Nat → IFStream → Image → Option Image
  | 0, _, result => some result
  | y + 1, ifs, result =>
    let rd := ifs.read row_size
    if rd.2.gcount < row_size then some Image.empty
    else (LoadBMP.fill rd.1 y width 0 result).bind fun result1 =>
      LoadBMP.rows width row_size y rd.2 result1

/-- The function `LoadBMP`. `file` is `none` if the file cannot be opened, else
its content. The result is `none` if the function does not return:
`std::vector<std::uint8_t> buffer(row_size)` throws for a negative `row_size`,
and a read outside the row buffer has no defined behaviour. -/
def LoadBMP (seekBeyondEnd : Bool) (file : Option (List Byte)) : Option Image :=
  match file with
  | none => some Image.empty
  | some content =>
    let ifs : IFStream := { file := content, seekBeyondEnd := seekBeyondEnd }
    let rd1 := ifs.read BitmapFileHeader.sizeof
    let file_header := BitmapFileHeader.ofBytes rd1.1
    if rd1.2.failbit || file_header.bm_type != 0x4D42 then some Image.empty
    else
      let rd2 := rd1.2.read BitmapInfoHeader.sizeof
      let info_header := BitmapInfoHeader.ofBytes rd2.1
      if rd2.2.failbit || info_header.bits_per_pixel != 24 then some Image.empty
      else
        let ifs := rd2.2.seekg file_header.padding
        if ifs.failbit || ifs.eofbit then some Image.empty
        else
          let width := info_header.img_width
          let height := info_header.img_height
          if width ≤ 0 ∨ height ≤ 0 then some Image.empty
          else
            let result := Image.new width height Color.Black
            let row_size := GetBMPStride width
            if row_size < 0 then none
            else LoadBMP.rows width.toNat row_size.toNat height.toNat ifs result

/-! ## Auxiliary definitions for the statements -/

/-- The `k`-th byte of a pixel in the file: blue, green, red. -/
def Color.channel (c : Color) (k : Nat) : Byte :=
  if k = 0 then c.b else if k = 1 then c.g else c.r

/-- The 54 bytes that `SaveBMP` writes ahead of the pixel rows of an image of
the given width and height, inside the overflow-free range of the stride. -/
def SaveBMP.header (reserved : Fin 4 → Byte) (width height : Nat) : List Byte :=
  BitmapFileHeader.toBytes
      { file_size := (54 + 4 * ((width * 3 + 3) / 4) * height) % 4294967296,
        reserved := reserved, padding := 54 }
    ++ BitmapInfoHeader.toBytes
      { img_width := width, img_height := height,
        data_size := (4 * ((width * 3 + 3) / 4) * height) % 4294967296 }

/-- The pixel stored as blue, green, red at offset `i` of a byte sequence. -/
def pixelAt (bs : List Byte) (i : Nat) : Color :=
  { r := bs.getD (i + 2) 0, g := bs.getD (i + 1) 0, b := bs.getD i 0 }

/-- A device that accepts every write. -/
def unlimited : Nat → Bool := fun _ => true

/-- An image of the given size in one colour. -/
def Image.uniform (w h : Nat) (c : Color) (hw : w < 2147483648) (hh : h < 2147483648) : Image :=
  ⟨w, h, fun _ _ => c, hw, hh⟩

/-- The image of width 1 and height 2 whose row 0 is red and whose row 1 is
blue. -/
def redOverBlue : Image :=
  ⟨1, 2, fun y _ => if y = 0 then ⟨255, 0, 0⟩ else ⟨0, 0, 255⟩, by decide, by decide⟩

/-- A file of `54 + 2^31` bytes: the headers of a 24-bit bitmap of width
715827882 and height 1, followed by one row of `2^31` zero bytes. -/
def wideRowFile : List Byte :=
  SaveBMP.header (fun _ => 0) 715827882 1 ++ List.replicate 2147483648 0

/-- A file of 62 bytes: the headers of a 24-bit bitmap of width 1 and height
2, followed by a blue and a red pixel, each with one pad byte. -/
def smallFile : List Byte :=
  SaveBMP.header (fun _ => 0) 1 2 ++ [255, 0, 0, 0, 0, 0, 255, 0]

/-- A file of 58 bytes: the headers of a 24-bit bitmap of width 1431655766 and
height 2, followed by four zero bytes. -/
def shortWideFile : List Byte :=
  SaveBMP.header (fun _ => 0) 1431655766 2 ++ [0, 0, 0, 0]

/-- A file of 54 bytes: the headers of a 24-bit bitmap of width 715827882 and
height 1, and no pixel data. -/
def wideHeaderFile : List Byte :=
  SaveBMP.header (fun _ => 0) 715827882 1

/-- A file of 60 bytes: the headers of a 24-bit bitmap of width 1 and height
2, followed by the bottom row and only half of the top row. -/
def truncatedFile : List Byte :=
  SaveBMP.header (fun _ => 0) 1 2 ++ [255, 0, 0, 0, 0, 0]

/-- The file `smallFile` with its signature overwritten by "XX". -/
def badSignatureFile : List Byte :=
  (smallFile.set 0 0x58).set 1 0x58

/-- The file `smallFile` with its bits-per-pixel field overwritten by 8. -/
def eightBitFile : List Byte :=
  smallFile.set 28 8

/-- The file `smallFile` with its height field overwritten by -2. -/
def negativeHeightFile : List Byte :=
  (((smallFile.set 22 0xFE).set 23 0xFF).set 24 0xFF).set 25 0xFF

/-- The file `smallFile` with its data-offset field overwritten by 200, which
is beyond its 62 bytes. -/
def farOffsetFile : List Byte :=
  smallFile.set 10 200

/-- The file `wideHeaderFile` with its data-offset field overwritten by 100,
which is beyond its 54 bytes. -/
def farOffsetWideFile : List Byte :=
  wideHeaderFile.set 10 100

/-- A device that accepts no write at all. -/
def full : Nat → Bool := fun _ => false

/-- A device that has room for the 54 header bytes and nothing more. -/
def headersOnly : Nat → Bool := fun n => decide (n ≤ 54)

/-- Whether position `i` of a stream is one of the trailing pad bytes of a
pixel row: it lies in one of the `height` rows of `stride` bytes that start at
the declared data offset, and behind the `3 * width` pixel bytes of that
row. -/
def padByte (content : List Byte) (i : Nat) : Bool :=
  let width := toI32 (fieldAt content 18 4)
  let height := toI32 (fieldAt content 22 4)
  let stride := GetBMPStride width
  let off := fieldAt content 10 4
  decide (off ≤ i ∧ 0 < stride ∧ (i - off) / stride.toNat < height.toNat ∧
    3 * width.toNat ≤ (i - off) % stride.toNat)

/-- Whether position `i` of a stream lies in one of the header fields that
`LoadBMP` never looks at: file size (2 to 5), reserved (6 to 9), info header
size (14 to 17), planes (26, 27), compression (30 to 33), image data size (34
to 37), the two resolutions (38 to 45) and the two colour counts (46 to 53). -/
def ignoredByte (i : Nat) : Bool :=
  decide ((2 ≤ i ∧ i < 10) ∨ (14 ≤ i ∧ i < 18) ∨ (26 ≤ i ∧ i < 28) ∨ (30 ≤ i ∧ i < 54))

/-- The file `smallFile` with the pad byte of its first stored row overwritten
by 0xAA. -/
def otherPadFile : List Byte :=
  smallFile.set 57 0xAA

/-- A file of 58 bytes: the headers of a 24-bit bitmap of width 1 and height
1 with the data-offset field overwritten by 25, followed by four zero bytes.
Its one row is the bytes 25 to 28, and the pad byte of that row is byte 28,
the low byte of the bits-per-pixel field. -/
def overlapPadFile : List Byte :=
  (SaveBMP.header (fun _ => 0) 1 1 ++ [0, 0, 0, 0]).set 10 25

/-- The file `overlapPadFile` with byte 28 overwritten by 8. -/
def overlapOtherPadFile : List Byte :=
  overlapPadFile.set 28 8

/-- The file `smallFile` with its compression field overwritten by 1. -/
def compressedFile : List Byte :=
  smallFile.set 30 1

/-- The file `smallFile` with its data-offset field overwritten by 30, the
offset of the compression field. -/
def overlapFile : List Byte :=
  smallFile.set 10 30

/-- The file `overlapFile` with its compression field overwritten by 1. -/
def overlapCompressedFile : List Byte :=
  overlapFile.set 30 1

/-! ## Arithmetic of the stride -/

theorem wrapI32_of_range (z : Int) (h0 : -2147483648 ≤ z) (h1 : z < 2147483648) :
    wrapI32 z = z := by
  unfold wrapI32; omega

theorem wrapU32_of_range (z : Int) (h0 : 0 ≤ z) (h1 : z < 4294967296) :
    wrapU32 z = z.toNat := by
  unfold wrapU32; congr 1; omega

theorem wrapU32_natCast (n : Nat) (h : n < 4294967296) : wrapU32 (n : Int) = n := by
  rw [wrapU32_of_range _ (by omega) (by omega)]; simp

/-- Inside the overflow-free range the 32-bit computation is the exact one. -/
theorem GetBMPStride_natCast (w : Nat) (h : w ≤ 715827881) :
    GetBMPStride (w : Int) = ((4 * ((w * 3 + 3) / 4) : Nat) : Int) := by
  unfold GetBMPStride
  rw [wrapI32_of_range ((w : Int) * 3) (by omega) (by omega),
    wrapI32_of_range ((w : Int) * 3 + 3) (by omega) (by omega)]
  have e : ((w : Int) * 3 + 3) = (((w * 3 + 3 : Nat)) : Int) := by push_cast; ring
  have d : Int.tdiv ((w * 3 + 3 : Nat) : Int) 4 = (((w * 3 + 3) / 4 : Nat) : Int) :=
    (Int.ofNat_tdiv (w * 3 + 3) 4).symm
  rw [e, d, wrapI32_of_range _ (by omega) (by omega)]
  push_cast; ring

/-! ## The encoder loops -/

theorem vecSet_eq_some (buffer : List Byte) (i : Nat) (v : Byte) (h : i < buffer.length) :
    vecSet buffer i v = some (buffer.set i v) := by
  simp [vecSet, h]

/-- The inner loop of `SaveBMP` stays inside a buffer of at least `3 * width`
bytes and overwrites exactly the bytes of the pixels it visits. -/
theorem SaveBMP.fill_writes (line : Nat → Color) (n : Nat) :
    ∀ (x : Nat) (buffer : List Byte), (x + n) * 3 ≤ buffer.length →
      ∃ b1, SaveBMP.fill line n x buffer = some b1 ∧ b1.length = buffer.length ∧
        ∀ i, b1[i]? = if x * 3 ≤ i ∧ i < (x + n) * 3
          then some ((line (i / 3)).channel (i % 3)) else buffer[i]? := by
  induction n with
  | zero =>
    intro x buffer _
    refine ⟨buffer, rfl, rfl, fun i => ?_⟩
    rw [if_neg (by omega)]
  | succ n ih =>
    intro x buffer hlen
    have h0 : x * 3 + 0 < buffer.length := by omega
    have h1 : x * 3 + 1 < (buffer.set (x * 3 + 0) (line x).b).length := by
      rw [List.length_set]; omega
    have h2 : x * 3 + 2 <
        ((buffer.set (x * 3 + 0) (line x).b).set (x * 3 + 1) (line x).g).length := by
      rw [List.length_set, List.length_set]; omega
    obtain ⟨b1, hb1, hl1, hg1⟩ := ih (x + 1)
      (((buffer.set (x * 3 + 0) (line x).b).set (x * 3 + 1) (line x).g).set (x * 3 + 2)
        (line x).r) (by simp only [List.length_set]; omega)
    refine ⟨b1, ?_, ?_, fun i => ?_⟩
    · rw [SaveBMP.fill, vecSet_eq_some _ _ _ h0, Option.some_bind, vecSet_eq_some _ _ _ h1,
        Option.some_bind, vecSet_eq_some _ _ _ h2, Option.some_bind, hb1]
    · rw [hl1]; simp only [List.length_set]
    · rw [hg1 i]
      by_cases c : (x + 1) * 3 ≤ i ∧ i < (x + 1 + n) * 3
      · have c2 : x * 3 ≤ i ∧ i < (x + (n + 1)) * 3 := by omega
        rw [if_pos c, if_pos c2]
      · rw [if_neg c]
        simp only [List.getElem?_set, List.length_set]
        by_cases e2 : x * 3 + 2 = i
        · have c2 : x * 3 ≤ i ∧ i < (x + (n + 1)) * 3 := by omega
          have q : i / 3 = x := by omega
          have r : i % 3 = 2 := by omega
          rw [if_pos e2, if_pos (by omega), if_pos c2, q, r]; rfl
        · rw [if_neg e2]
          by_cases e1 : x * 3 + 1 = i
          · have c2 : x * 3 ≤ i ∧ i < (x + (n + 1)) * 3 := by omega
            have q : i / 3 = x := by omega
            have r : i % 3 = 1 := by omega
            rw [if_pos e1, if_pos (by omega), if_pos c2, q, r]; rfl
          · rw [if_neg e1]
            by_cases e0 : x * 3 + 0 = i
            · have c2 : x * 3 ≤ i ∧ i < (x + (n + 1)) * 3 := by omega
              have q : i / 3 = x := by omega
              have r : i % 3 = 0 := by omega
              rw [if_pos e0, if_pos (by omega), if_pos c2, q, r]; rfl
            · have c2 : ¬ (x * 3 ≤ i ∧ i < (x + (n + 1)) * 3) := by omega
              rw [if_neg e0, if_neg c2]

theorem OFStream.write_good (ofs : OFStream) (bs : List Byte) (hb : ofs.badbit = false)
    (ha : ∀ m, ofs.accepts m = true) :
    ofs.write bs = { ofs with data := ofs.data ++ bs } := by
  simp [OFStream.write, hb, ha]

/-- The outer loop of `SaveBMP` on a stream that takes every write: it appends
`n` rows of `S` bytes, row `y` at row offset `n - 1 - y`; the bytes beyond the
pixels of a row are those the buffer had before the loop. -/
theorem SaveBMP.rows_writes (image : Image) (S : Nat) (hS : image.width * 3 ≤ S) (n : Nat) :
    ∀ (buffer : List Byte) (ofs : OFStream), buffer.length = S → ofs.badbit = false →
      (∀ m, ofs.accepts m = true) →
      ∃ data, SaveBMP.rows image n buffer ofs = some { ofs with data := ofs.data ++ data } ∧
        data.length = n * S ∧
        ∀ y, y < n → ∀ i, i < S → data[(n - 1 - y) * S + i]? =
          if i < image.width * 3 then some ((image.pixels y (i / 3)).channel (i % 3))
          else buffer[i]? := by
  induction n with
  | zero =>
    intro buffer ofs _ _ _
    exact ⟨[], by simp [SaveBMP.rows], by simp, fun y hy => absurd hy (Nat.not_lt_zero y)⟩
  | succ n ih =>
    intro buffer ofs hlen hb ha
    obtain ⟨b1, hb1, hl1, hg1⟩ := SaveBMP.fill_writes (image.pixels n) image.width 0 buffer
      (by omega)
    obtain ⟨data, hd, hdl, hdg⟩ := ih b1 { ofs with data := ofs.data ++ b1 }
      (by omega) hb ha
    refine ⟨b1 ++ data, ?_, ?_, ?_⟩
    · rw [SaveBMP.rows, hb1, Option.some_bind, OFStream.write_good ofs b1 hb ha, hd]
      simp [List.append_assoc]
    · rw [List.length_append, hdl, hl1, hlen, Nat.succ_mul]; omega
    · intro y hy i hi
      by_cases e : y = n
      · subst e
        have z : (y + 1 - 1 - y) * S + i = i := by
          rw [show y + 1 - 1 - y = 0 by omega]; omega
        rw [z, List.getElem?_append_left (by omega), hg1 i]
        by_cases c : i < image.width * 3
        · rw [if_pos c, if_pos (by omega)]
        · rw [if_neg c, if_neg (by omega)]
      · have hy2 : y < n := by omega
        have z : (n + 1 - 1 - y) * S + i = b1.length + ((n - 1 - y) * S + i) := by
          rw [show n + 1 - 1 - y = (n - 1 - y) + 1 by omega, Nat.add_mul, hl1, hlen]; omega
        rw [z, List.getElem?_append_right (by omega), Nat.add_sub_cancel_left, hdg y hy2 i hi]
        by_cases c : i < image.width * 3
        · rw [if_pos c, if_pos c]
        · rw [if_neg c, if_neg c, hg1 i, if_neg (by omega)]

/-! ## The headers as bytes -/

theorem wrapU32_add_wrapI32 (p n : Nat) :
    wrapU32 ((p : Int) + wrapI32 (n : Int)) = (p + n) % 4294967296 := by
  unfold wrapU32 wrapI32; omega

theorem wrapU32_wrapI32 (n : Nat) : wrapU32 (wrapI32 (n : Int)) = n % 4294967296 := by
  unfold wrapU32 wrapI32; omega

theorem leValue_four (n : Nat) :
    leValue [lowByte n, lowByte (n / 256), lowByte (n / 256 / 256),
      lowByte (n / 256 / 256 / 256)] = n % 4294967296 := by
  simp only [leValue, lowByte]; omega

theorem leValue_two (n : Nat) :
    leValue [lowByte n, lowByte (n / 256)] = n % 65536 := by
  simp only [leValue, lowByte]; omega

theorem fieldAt_four (bs : List Byte) (off : Nat) :
    fieldAt bs off 4 = leValue [bs.getD off 0, bs.getD (off + 1) 0, bs.getD (off + 2) 0,
      bs.getD (off + 3) 0] := by
  simp [fieldAt, List.range, List.range.loop]

theorem fieldAt_two (bs : List Byte) (off : Nat) :
    fieldAt bs off 2 = leValue [bs.getD off 0, bs.getD (off + 1) 0] := by
  simp [fieldAt, List.range, List.range.loop]

theorem SaveBMP.header_length (reserved : Fin 4 → Byte) (w h : Nat) :
    (SaveBMP.header reserved w h).length = 54 := by
  simp only [SaveBMP.header, BitmapFileHeader.toBytes, BitmapInfoHeader.toBytes, leBytes,
    List.length_append, List.length_cons, List.length_nil, List.length_ofFn]

/-- The fields of the header that `SaveBMP` writes, read back at their offsets. -/
theorem SaveBMP.header_fields (reserved : Fin 4 → Byte) (w h : Nat) (data : List Byte) :
    fieldAt (SaveBMP.header reserved w h ++ data) 0 2 = 0x4D42 ∧
    fieldAt (SaveBMP.header reserved w h ++ data) 2 4
      = (54 + 4 * ((w * 3 + 3) / 4) * h) % 4294967296 ∧
    fieldAt (SaveBMP.header reserved w h ++ data) 10 4 = 54 ∧
    fieldAt (SaveBMP.header reserved w h ++ data) 14 4 = 40 ∧
    fieldAt (SaveBMP.header reserved w h ++ data) 18 4 = wrapU32 w ∧
    fieldAt (SaveBMP.header reserved w h ++ data) 22 4 = wrapU32 h ∧
    fieldAt (SaveBMP.header reserved w h ++ data) 26 2 = 1 ∧
    fieldAt (SaveBMP.header reserved w h ++ data) 28 2 = 24 ∧
    fieldAt (SaveBMP.header reserved w h ++ data) 30 4 = 0 ∧
    fieldAt (SaveBMP.header reserved w h ++ data) 34 4
      = (4 * ((w * 3 + 3) / 4) * h) % 4294967296 ∧
    fieldAt (SaveBMP.header reserved w h ++ data) 38 4 = 11811 ∧
    fieldAt (SaveBMP.header reserved w h ++ data) 42 4 = 11811 ∧
    fieldAt (SaveBMP.header reserved w h ++ data) 46 4 = 0 ∧
    fieldAt (SaveBMP.header reserved w h ++ data) 50 4 = 0x1000000 := by
  have u : ∀ z : Int, wrapU32 z % 4294967296 = wrapU32 z := by
    intro z; unfold wrapU32; omega
  refine ⟨?_, ?_, ?_, ?_, ?_, ?_, ?_, ?_, ?_, ?_, ?_, ?_, ?_, ?_⟩ <;>
    first
    | (rw [fieldAt_four]
       simp only [SaveBMP.header, BitmapFileHeader.toBytes, BitmapInfoHeader.toBytes, leBytes,
         List.ofFn_succ, List.ofFn_zero, List.cons_append, List.nil_append, List.getD_cons_succ,
         List.getD_cons_zero, leValue_four, u, Nat.mod_mod]
       try rfl)
    | (rw [fieldAt_two]
       simp only [SaveBMP.header, BitmapFileHeader.toBytes, BitmapInfoHeader.toBytes, leBytes,
         List.ofFn_succ, List.ofFn_zero, List.cons_append, List.nil_append, List.getD_cons_succ,
         List.getD_cons_zero, leValue_two]
       try rfl)

/-! ## `SaveBMP` as a whole -/

theorem OFStream.write_mk (device : Nat → Bool) (data bs : List Byte)
    (hdev : ∀ m, device m = true) :
    OFStream.write { accepts := device, data := data, badbit := false } bs
      = { accepts := device, data := data ++ bs, badbit := false } := by
  simp [OFStream.write, hdev]

/-- On a sink that takes every write, and for a width whose stride fits in an
`int`, `SaveBMP` returns `true` and the file is the 54 header bytes followed by
`height` rows of `stride` bytes, bottom row first, each row holding its pixels
as blue, green, red and then zeros. -/
theorem SaveBMP_eq (device : Nat → Bool) (reserved : Fin 4 → Byte) (image : Image)
    (hdev : ∀ m, device m = true) (hw : image.width ≤ 715827881) :
    ∃ data, SaveBMP (some device) reserved image
        = some ⟨true, SaveBMP.header reserved image.width image.height ++ data⟩ ∧
      data.length = image.height * (4 * ((image.width * 3 + 3) / 4)) ∧
      ∀ y, y < image.height → ∀ i, i < 4 * ((image.width * 3 + 3) / 4) →
        data[(image.height - 1 - y) * (4 * ((image.width * 3 + 3) / 4)) + i]? =
          some (if i < image.width * 3 then (image.pixels y (i / 3)).channel (i % 3) else 0) := by
  obtain ⟨data, hd, hl, hg⟩ := SaveBMP.rows_writes image (4 * ((image.width * 3 + 3) / 4))
    (by omega) image.height (List.replicate (4 * ((image.width * 3 + 3) / 4)) 0)
    { accepts := device, data := SaveBMP.header reserved image.width image.height }
    (by simp) rfl hdev
  refine ⟨data, ?_, hl, ?_⟩
  · have e1 : ((4 * ((image.width * 3 + 3) / 4) : Nat) : Int) * (image.height : Int)
        = ((4 * ((image.width * 3 + 3) / 4) * image.height : Nat) : Int) := by push_cast; ring
    have e2 : ¬ (((4 * ((image.width * 3 + 3) / 4) : Nat) : Int) < 0) := by omega
    simp only [SaveBMP, GetBMPStride_natCast image.width hw, e1, BitmapFileHeader.sizeof,
      BitmapInfoHeader.sizeof]
    rw [if_neg e2]
    simp only [OFStream.write_mk _ _ _ hdev]
    rw [Int.toNat_ofNat, List.nil_append]
    have e3 : wrapU32 (((14 + 40 : Nat) : Int)
        + wrapI32 ((4 * ((image.width * 3 + 3) / 4) * image.height : Nat) : Int))
        = (54 + 4 * ((image.width * 3 + 3) / 4) * image.height) % 4294967296 :=
      wrapU32_add_wrapI32 _ _
    rw [e3, wrapU32_wrapI32]
    change (SaveBMP.rows image image.height (List.replicate (4 * ((image.width * 3 + 3) / 4)) 0)
      { accepts := device, data := SaveBMP.header reserved image.width image.height }).bind _ = _
    rw [hd]; rfl
  · intro y hy i hi
    rw [hg y hy i hi]
    by_cases c : i < image.width * 3
    · rw [if_pos c, if_pos c]
    · rw [if_neg c, if_neg c, List.getElem?_replicate, if_pos hi]

/-! ## The input stream -/

theorem IFStream.read_ok (s : IFStream) (n : Nat) (hf : s.failbit = false)
    (he : s.eofbit = false) (hl : s.pos + n ≤ s.file.length) :
    s.read n = ((s.file.drop s.pos).take n, { s with pos := s.pos + n, gcount := n }) := by
  have : ¬ ((List.take n (List.drop s.pos s.file)).length < n) := by
    rw [List.length_take, List.length_drop]; omega
  simp only [IFStream.read, hf, he, Bool.or_self, Bool.false_eq_true, if_false, this]

theorem IFStream.read_short (s : IFStream) (n : Nat) (hf : s.failbit = false)
    (he : s.eofbit = false) (hl : s.file.length - s.pos < n) :
    (s.read n).2.failbit = true ∧ (s.read n).2.gcount < n := by
  have : (List.take n (List.drop s.pos s.file)).length < n := by
    rw [List.length_take, List.length_drop]; omega
  simp only [IFStream.read, hf, he, Bool.or_self, Bool.false_eq_true, if_false, this, if_true,
    and_self]

theorem getD_take_drop (bs : List Byte) (p n i : Nat) (h : i < n) :
    ((bs.drop p).take n).getD i 0 = bs.getD (p + i) 0 := by
  rw [List.getD_eq_getElem?_getD, List.getD_eq_getElem?_getD, List.getElem?_take, if_pos h,
    List.getElem?_drop]

theorem fieldAt_take_drop (bs : List Byte) (p n off k : Nat) (h : off + k ≤ n) :
    fieldAt ((bs.drop p).take n) off k = fieldAt bs (p + off) k := by
  unfold fieldAt
  congr 1
  apply List.map_congr_left
  intro i hi
  rw [List.mem_range] at hi
  rw [getD_take_drop bs p n (off + i) (by omega), Nat.add_assoc]

theorem IFStream.read_mk (content : List Byte) (seek : Bool) (p g n : Nat)
    (h : p + n ≤ content.length) :
    IFStream.read
        { file := content, seekBeyondEnd := seek, pos := p, failbit := false,
          eofbit := false, gcount := g } n
      = ((content.drop p).take n,
        { file := content, seekBeyondEnd := seek, pos := p + n,
          failbit := false, eofbit := false, gcount := n }) :=
  IFStream.read_ok _ n rfl rfl h

theorem IFStream.seekg_mk (content : List Byte) (seek : Bool) (p g q : Nat) :
    IFStream.seekg
        { file := content, seekBeyondEnd := seek, pos := p, failbit := false,
          eofbit := false, gcount := g } q
      = if q ≤ content.length ∨ seek = true then
          { file := content, seekBeyondEnd := seek, pos := q, failbit := false,
            eofbit := false, gcount := g }
        else
          { file := content, seekBeyondEnd := seek, pos := p, failbit := true,
            eofbit := false, gcount := g } := by
  by_cases c : q ≤ content.length ∨ seek = true
  · rw [if_pos c]
    rcases c with c | c <;> simp [IFStream.seekg, c]
  · rw [if_neg c]
    have c1 : ¬ q ≤ content.length := fun h => c (Or.inl h)
    have c2 : seek = false := by cases seek <;> simp_all
    simp [IFStream.seekg, c1, c2]

/-! ## `LoadBMP` in terms of the fields of the file -/

/-- The checks of `LoadBMP`, in the order in which the function makes them,
expressed on the content of the file. -/
theorem LoadBMP_unfold (seek : Bool) (content : List Byte) :
    LoadBMP seek (some content) =
      if content.length < 14 ∨ fieldAt content 0 2 ≠ 0x4D42 then some Image.empty
      else if content.length < 54 ∨ fieldAt content 28 2 ≠ 24 then some Image.empty
      else if ¬ (fieldAt content 10 4 ≤ content.length ∨ seek = true) then some Image.empty
      else if toI32 (fieldAt content 18 4) ≤ 0 ∨ toI32 (fieldAt content 22 4) ≤ 0
        then some Image.empty
      else if GetBMPStride (toI32 (fieldAt content 18 4)) < 0 then none
      else LoadBMP.rows (toI32 (fieldAt content 18 4)).toNat
        (GetBMPStride (toI32 (fieldAt content 18 4))).toNat (toI32 (fieldAt content 22 4)).toNat
        { file := content, seekBeyondEnd := seek, pos := fieldAt content 10 4, failbit := false,
          eofbit := false, gcount := 40 }
        (Image.new (toI32 (fieldAt content 18 4)) (toI32 (fieldAt content 22 4)) Color.Black) := by
  simp only [LoadBMP, BitmapFileHeader.sizeof, BitmapInfoHeader.sizeof]
  by_cases h14 : content.length < 14
  · have r := (IFStream.read_short { file := content, seekBeyondEnd := seek } 14 rfl rfl
      (by simpa using h14)).1
    rw [r, if_pos (Or.inl h14)]
    simp
  · rw [IFStream.read_mk content seek 0 0 14 (by omega)]
    dsimp only [BitmapFileHeader.ofBytes, BitmapInfoHeader.ofBytes]
    rw [fieldAt_take_drop content 0 14 0 2 (by omega), fieldAt_take_drop content 0 14 10 4 (by omega)]
    by_cases hbm : fieldAt content 0 2 = 19778
    · simp only [hbm, h14, bne_self_eq_false, Bool.or_self, Bool.false_eq_true, if_false,
        ne_eq, not_true_eq_false, or_self, Nat.zero_add]
      by_cases h54 : content.length < 54
      · have r := (IFStream.read_short
          { file := content, seekBeyondEnd := seek, pos := 14, gcount := 14 }
          40 rfl rfl (by simp; omega)).1
        rw [r, if_pos (Or.inl h54)]
        simp
      · rw [IFStream.read_mk content seek 14 14 40 (by omega)]
        dsimp only
        rw [fieldAt_take_drop content 14 40 14 2 (by omega),
          fieldAt_take_drop content 14 40 4 4 (by omega),
          fieldAt_take_drop content 14 40 8 4 (by omega)]
        simp only [Nat.reduceAdd, Bool.false_or, h54, false_or, IFStream.seekg_mk]
        by_cases hbpp : fieldAt content 28 2 = 24
        · simp only [hbpp, bne_self_eq_false, Bool.false_eq_true, if_false, not_true_eq_false]
          by_cases hseek : fieldAt content 10 4 ≤ content.length ∨ seek = true
          · simp only [hseek, if_true, Bool.or_self, Bool.false_eq_true, if_false,
              not_true_eq_false]
          · simp only [hseek, if_false, Bool.true_or, if_true, not_false_eq_true]
        · simp [hbpp]
    · rw [if_pos (by simp [hbm]), if_pos (Or.inr hbm)]

/-! ## The decoder loops -/

theorem getElem?_eq_some_getD (bs : List Byte) (i : Nat) (h : i < bs.length) :
    bs[i]? = some (bs.getD i 0) := by
  rw [List.getD_eq_getElem?_getD, List.getElem?_eq_getElem h]; rfl

/-- The inner loop of `LoadBMP` stays inside a buffer of at least `3 * width`
bytes and assigns exactly the pixels of row `y` that it visits. -/
theorem LoadBMP.fill_reads (buffer : List Byte) (y n : Nat) :
    ∀ (x : Nat) (result : Image), (x + n) * 3 ≤ buffer.length →
      ∃ r1, LoadBMP.fill buffer y n x result = some r1 ∧ r1.width = result.width ∧
        r1.height = result.height ∧
        ∀ y1 x1, r1.pixels y1 x1 =
          if y1 = y ∧ x ≤ x1 ∧ x1 < x + n then pixelAt buffer (x1 * 3)
          else result.pixels y1 x1 := by
  induction n with
  | zero =>
    intro x result _
    refine ⟨result, rfl, rfl, rfl, fun y1 x1 => ?_⟩
    rw [if_neg (by omega)]
  | succ n ih =>
    intro x result hlen
    obtain ⟨r1, hr1, hw1, hh1, hp1⟩ := ih (x + 1)
      (((result.modify y x fun c => { c with b := buffer.getD (x * 3 + 0) 0 }).modify y x
        fun c => { c with g := buffer.getD (x * 3 + 1) 0 }).modify y x
        fun c => { c with r := buffer.getD (x * 3 + 2) 0 }) (by omega)
    refine ⟨r1, ?_, hw1, hh1, fun y1 x1 => ?_⟩
    · rw [LoadBMP.fill, getElem?_eq_some_getD buffer (x * 3 + 0) (by omega), Option.some_bind,
        getElem?_eq_some_getD buffer (x * 3 + 1) (by omega), Option.some_bind,
        getElem?_eq_some_getD buffer (x * 3 + 2) (by omega), Option.some_bind, hr1]
    · rw [hp1 y1 x1]
      by_cases c : y1 = y ∧ x + 1 ≤ x1 ∧ x1 < x + 1 + n
      · rw [if_pos c, if_pos (by omega)]
      · rw [if_neg c]
        by_cases e : y1 = y ∧ x1 = x
        · rw [if_pos (by omega)]
          obtain ⟨e1, e2⟩ := e
          subst e1 e2
          simp [Image.modify, pixelAt]
        · rw [if_neg (by omega)]
          simp [Image.modify, e]

theorem pixelAt_take_drop (bs : List Byte) (p n i : Nat) (h : i + 2 < n) :
    pixelAt ((bs.drop p).take n) i = pixelAt bs (p + i) := by
  simp only [pixelAt, getD_take_drop bs p n (i + 2) h, getD_take_drop bs p n (i + 1) (by omega),
    getD_take_drop bs p n i (by omega), Nat.add_assoc]

/-- The outer loop of `LoadBMP` on a stream that holds `n` more rows of `S`
bytes: every row is read in full, row `y` from row offset `n - 1 - y`. -/
theorem LoadBMP.rows_reads (content : List Byte) (seek : Bool) (width S : Nat)
    (hS : width * 3 ≤ S) (n : Nat) :
    ∀ (p g : Nat) (result : Image), p + n * S ≤ content.length →
      ∃ r1, LoadBMP.rows width S n
          { file := content, seekBeyondEnd := seek, pos := p, failbit := false,
            eofbit := false, gcount := g } result = some r1 ∧
        r1.width = result.width ∧ r1.height = result.height ∧
        ∀ y1 x1, r1.pixels y1 x1 =
          if y1 < n ∧ x1 < width then pixelAt content (p + (n - 1 - y1) * S + x1 * 3)
          else result.pixels y1 x1 := by
  induction n with
  | zero =>
    intro p g result _
    refine ⟨result, rfl, rfl, rfl, fun y1 x1 => ?_⟩
    rw [if_neg (by omega)]
  | succ n ih =>
    intro p g result hlen
    have hpS : p + S ≤ content.length := by
      rw [Nat.succ_mul] at hlen; omega
    obtain ⟨r0, hr0, hw0, hh0, hp0⟩ := LoadBMP.fill_reads ((content.drop p).take S) n width 0
      result (by rw [List.length_take, List.length_drop]; omega)
    obtain ⟨r1, hr1, hw1, hh1, hp1⟩ := ih (p + S) S r0 (by rw [Nat.succ_mul] at hlen; omega)
    refine ⟨r1, ?_, by rw [hw1, hw0], by rw [hh1, hh0], fun y1 x1 => ?_⟩
    · simp only [LoadBMP.rows]
      rw [IFStream.read_mk content seek p g S hpS]
      dsimp only
      rw [if_neg (Nat.lt_irrefl S), hr0, Option.some_bind, hr1]
    · rw [hp1 y1 x1]
      by_cases c : y1 < n ∧ x1 < width
      · have z : p + S + (n - 1 - y1) * S = p + (n + 1 - 1 - y1) * S := by
          rw [show n + 1 - 1 - y1 = (n - 1 - y1) + 1 by omega, Nat.add_mul]; omega
        rw [if_pos c, if_pos (by omega), z]
      · rw [if_neg c, hp0 y1 x1]
        by_cases e : y1 = n ∧ x1 < width
        · obtain ⟨e1, e2⟩ := e
          subst e1
          rw [if_pos (by omega), if_pos (by omega), pixelAt_take_drop content p S (x1 * 3) (by omega),
            show y1 + 1 - 1 - y1 = 0 by omega, Nat.zero_mul, Nat.add_zero]
        · rw [if_neg (by omega), if_neg (by omega)]

/-- The outer loop of `LoadBMP` on a stream that ends before the last of its
`n` rows: the result is the empty image. -/
theorem LoadBMP.rows_truncated (content : List Byte) (seek : Bool) (width S : Nat)
    (hS : width * 3 ≤ S) (n : Nat) :
    ∀ (p g : Nat) (result : Image), content.length - p < n * S →
      LoadBMP.rows width S n
          { file := content, seekBeyondEnd := seek, pos := p, failbit := false,
            eofbit := false, gcount := g } result = some Image.empty := by
  induction n with
  | zero =>
    intro p g result h
    omega
  | succ n ih =>
    intro p g result hlen
    have hpos : 0 < S := by
      rcases Nat.eq_zero_or_pos S with z | z
      · rw [z, Nat.mul_zero] at hlen; omega
      · exact z
    by_cases hpS : p + S ≤ content.length
    · obtain ⟨r0, hr0, _⟩ := LoadBMP.fill_reads ((content.drop p).take S) n width 0
        result (by rw [List.length_take, List.length_drop]; omega)
      simp only [LoadBMP.rows]
      rw [IFStream.read_mk content seek p g S hpS]
      dsimp only
      rw [if_neg (Nat.lt_irrefl S), hr0, Option.some_bind]
      exact ih (p + S) S r0 (by rw [Nat.succ_mul] at hlen; omega)
    · simp only [LoadBMP.rows]
      rw [if_pos (IFStream.read_short _ S rfl rfl (by simp only; omega)).2]

/-! ## The stride -/

theorem ceil_three_quarters (w : Nat) :
    ⌈((w : Int) : ℚ) * 3 / 4⌉ = (((w * 3 + 3) / 4 : Nat) : Int) := by
  have h2 : 4 * ((w * 3 + 3) / 4) ≤ w * 3 + 3 := by omega
  have h3 : w * 3 ≤ 4 * ((w * 3 + 3) / 4) := by omega
  generalize (w * 3 + 3) / 4 = q at h2 h3
  have q1 : 4 * (q : ℚ) ≤ (w : ℚ) * 3 + 3 := by exact_mod_cast h2
  have q3 : (w : ℚ) * 3 ≤ 4 * (q : ℚ) := by exact_mod_cast h3
  rw [Int.ceil_eq_iff]
  simp only [Int.cast_natCast]
  constructor <;> linarith

/-- C2 (amended): for every width `w` with `0 ≤ w ≤ 715827881`, `GetBMPStride w`
equals `4 * ceil (w * 3 / 4)`, is a multiple of 4, is at least `3 * w` and less
than `3 * w + 4`; and `GetBMPStride` gives 4, 8, 12, 12, 16, 24, 300 for the
widths 1, 2, 3, 4, 5, 8, 100. -/
theorem GetBMPStride_spec (w : Int) (h0 : 0 ≤ w) (h1 : w ≤ 715827881) :
    (GetBMPStride w = 4 * ⌈(w : ℚ) * 3 / 4⌉ ∧ 4 ∣ GetBMPStride w ∧
      3 * w ≤ GetBMPStride w ∧ GetBMPStride w < 3 * w + 4) ∧
    [1, 2, 3, 4, 5, 8, 100].map GetBMPStride = [4, 8, 12, 12, 16, 24, 300] := by
  refine ⟨?_, by decide⟩
  obtain ⟨n, rfl⟩ := Int.eq_ofNat_of_zero_le h0
  have hn : n ≤ 715827881 := by omega
  rw [GetBMPStride_natCast n hn, ceil_three_quarters n]
  refine ⟨by push_cast; ring, ⟨(((n * 3 + 3) / 4 : Nat) : Int), by push_cast; ring⟩, ?_, ?_⟩
  · have : n * 3 ≤ 4 * ((n * 3 + 3) / 4) := by omega
    omega
  · have : 4 * ((n * 3 + 3) / 4) < n * 3 + 4 := by omega
    omega

/-- C2, witness: the width 5. -/
theorem GetBMPStride_spec_witness :
    (GetBMPStride 5 = 4 * ⌈((5 : Int) : ℚ) * 3 / 4⌉ ∧ 4 ∣ GetBMPStride 5 ∧
      3 * 5 ≤ GetBMPStride 5 ∧ GetBMPStride 5 < 3 * 5 + 4) ∧
    [1, 2, 3, 4, 5, 8, 100].map GetBMPStride = [4, 8, 12, 12, 16, 24, 300] :=
  GetBMPStride_spec 5 (by decide) (by decide)

/-- C2, counterexample: the width 715827882 is non-negative and fits in an
`int`, but `GetBMPStride` returns -2147483644 for it, which is neither
`4 * ceil (w * 3 / 4)` nor at least `3 * w`. -/
theorem GetBMPStride_overflow :
    (0 : Int) ≤ 715827882 ∧ GetBMPStride 715827882 = -2147483644 ∧
      ¬ (GetBMPStride 715827882 = 4 * ⌈((715827882 : Int) : ℚ) * 3 / 4⌉ ∧
        4 ∣ GetBMPStride 715827882 ∧ 3 * 715827882 ≤ GetBMPStride 715827882 ∧
        GetBMPStride 715827882 < 3 * 715827882 + 4) := by
  have e : GetBMPStride 715827882 = -2147483644 := by decide
  refine ⟨by decide, e, ?_⟩
  rw [e]
  intro h
  exact absurd h.2.2.1 (by decide)

/-! ## The encoder: pixel layout -/

theorem getElem?_header_append (reserved : Fin 4 → Byte) (w h : Nat) (data : List Byte)
    (j : Nat) : (SaveBMP.header reserved w h ++ data)[54 + j]? = data[j]? := by
  rw [List.getElem?_append_right (by rw [SaveBMP.header_length]; omega),
    SaveBMP.header_length, Nat.add_sub_cancel_left]

theorem GetBMPStride_toNat (w : Nat) (h : w ≤ 715827881) :
    (GetBMPStride (w : Int)).toNat = 4 * ((w * 3 + 3) / 4) := by
  rw [GetBMPStride_natCast w h, Int.toNat_ofNat]

/-- C3 (amended): for every image whose width is at most 715827881, `SaveBMP`
(on a sink that takes every write) returns `true` and, for every row
`y < height` and column `x < width`, the bytes of its output at the offsets
`54 + (height - 1 - y) * stride + 3 * x + 0, + 1, + 2` are the blue, green and
red channels of pixel `(x, y)`, with `stride = GetBMPStride width`. For the 1x2
image with row 0 red and row 1 blue, the bytes from offset 54 on are those of
blue, a pad byte, those of red, a pad byte. -/
theorem SaveBMP_pixel_layout (reserved : Fin 4 → Byte) (image : Image)
    (hw : image.width ≤ 715827881) :
    (∃ saved, SaveBMP (some unlimited) reserved image = some saved ∧ saved.ok = true ∧
      ∀ y x, y < image.height → x < image.width →
        saved.written[54 + (image.height - 1 - y) * (GetBMPStride image.width).toNat
          + 3 * x + 0]? = some (image.pixels y x).b ∧
        saved.written[54 + (image.height - 1 - y) * (GetBMPStride image.width).toNat
          + 3 * x + 1]? = some (image.pixels y x).g ∧
        saved.written[54 + (image.height - 1 - y) * (GetBMPStride image.width).toNat
          + 3 * x + 2]? = some (image.pixels y x).r) ∧
    (SaveBMP (some unlimited) (fun _ => 0) redOverBlue).map (fun s => s.written.drop 54)
      = some [255, 0, 0, 0, 0, 0, 255, 0] := by
  refine ⟨?_, by decide⟩
  obtain ⟨data, hs, _, hg⟩ := SaveBMP_eq unlimited reserved image (fun _ => rfl) hw
  refine ⟨_, hs, rfl, fun y x hy hx => ?_⟩
  rw [GetBMPStride_toNat image.width hw]
  have key : ∀ k, k < 3 →
      (SaveBMP.header reserved image.width image.height ++ data)[54
        + (image.height - 1 - y) * (4 * ((image.width * 3 + 3) / 4)) + 3 * x + k]?
        = some ((image.pixels y x).channel k) := by
    intro k hk
    rw [show 54 + (image.height - 1 - y) * (4 * ((image.width * 3 + 3) / 4)) + 3 * x + k
        = 54 + ((image.height - 1 - y) * (4 * ((image.width * 3 + 3) / 4)) + (3 * x + k)) by omega,
      getElem?_header_append, hg y hy (3 * x + k) (by omega), if_pos (by omega),
      show (3 * x + k) / 3 = x by omega, show (3 * x + k) % 3 = k by omega]
  exact ⟨key 0 (by decide), key 1 (by decide), key 2 (by decide)⟩

/-- C3, witness: the 1x2 image with row 0 red and row 1 blue. -/
theorem SaveBMP_pixel_layout_witness :
    redOverBlue.width ≤ 715827881 ∧
    ((∃ saved, SaveBMP (some unlimited) (fun _ => 0) redOverBlue = some saved ∧ saved.ok = true ∧
      ∀ y x, y < redOverBlue.height → x < redOverBlue.width →
        saved.written[54 + (redOverBlue.height - 1 - y) * (GetBMPStride redOverBlue.width).toNat
          + 3 * x + 0]? = some (redOverBlue.pixels y x).b ∧
        saved.written[54 + (redOverBlue.height - 1 - y) * (GetBMPStride redOverBlue.width).toNat
          + 3 * x + 1]? = some (redOverBlue.pixels y x).g ∧
        saved.written[54 + (redOverBlue.height - 1 - y) * (GetBMPStride redOverBlue.width).toNat
          + 3 * x + 2]? = some (redOverBlue.pixels y x).r) ∧
    (SaveBMP (some unlimited) (fun _ => 0) redOverBlue).map (fun s => s.written.drop 54)
      = some [255, 0, 0, 0, 0, 0, 255, 0]) :=
  ⟨by decide, SaveBMP_pixel_layout (fun _ => 0) redOverBlue (by decide)⟩

/-- C3, counterexample: for the black image of width 715827882 and height 1 the
stride computed by `GetBMPStride` is negative, the row buffer cannot be
allocated and `SaveBMP` does not return: there is no output whose bytes at
offset 54 and following could be the channels of pixel `(0, 0)`. -/
theorem SaveBMP_pixel_layout_overflow :
    ¬ ∃ saved, SaveBMP (some unlimited) (fun _ => 0)
        (Image.uniform 715827882 1 Color.Black (by decide) (by decide)) = some saved ∧
      saved.written[54 + (1 - 1 - 0) * (GetBMPStride 715827882).toNat + 3 * 0 + 0]?
        = some Color.Black.b := by
  have e : SaveBMP (some unlimited) (fun _ => 0)
      (Image.uniform 715827882 1 Color.Black (by decide) (by decide)) = none := by decide
  rw [e]
  rintro ⟨saved, h, _⟩
  exact absurd h (by simp)

/-! ## The encoder: header layout -/

theorem getElem?_zero_one_of_fieldAt (bs : List Byte) (h2 : 2 ≤ bs.length)
    (h : fieldAt bs 0 2 = 0x4D42) : bs[0]? = some 0x42 ∧ bs[1]? = some 0x4D := by
  rw [fieldAt_two] at h
  simp only [leValue] at h
  rw [getElem?_eq_some_getD bs 0 (by omega), getElem?_eq_some_getD bs 1 (by omega)]
  have a := (bs.getD 0 0).isLt
  have b := (bs.getD (0 + 1) 0).isLt
  constructor
  · congr 1; apply Fin.ext
    show (bs.getD 0 0).val = 66
    omega
  · congr 1; apply Fin.ext
    show (bs.getD (0 + 1) 0).val = 77
    omega

/-- C4 (amended): for every image of width `w ≤ 715827881` and height `h` with
`stride * h < 2^32`, the first 54 bytes of the output of `SaveBMP` (on a sink
that takes every write) carry, in little-endian order and without
padding between the fields: the signature bytes 0x42 0x4D at offset 0, the data
offset 54 at offset 10, the info header size 40 at offset 14, `w` at offset 18,
`h` at offset 22, planes 1 at offset 26, bits per pixel 24 at offset 28,
compression 0 at offset 30, the image data size `stride * h` at offset 34, the
resolutions 11811 at offsets 38 and 42, used colours 0 at offset 46 and
significant colours 0x1000000 at offset 50. -/
theorem SaveBMP_header_layout (reserved : Fin 4 → Byte) (image : Image)
    (hw : image.width ≤ 715827881)
    (hsize : GetBMPStride image.width * image.height < 4294967296) :
    ∃ saved, SaveBMP (some unlimited) reserved image = some saved ∧
      54 ≤ saved.written.length ∧
      saved.written[0]? = some 0x42 ∧ saved.written[1]? = some 0x4D ∧
      fieldAt saved.written 10 4 = 54 ∧
      fieldAt saved.written 14 4 = 40 ∧
      fieldAt saved.written 18 4 = image.width ∧
      fieldAt saved.written 22 4 = image.height ∧
      fieldAt saved.written 26 2 = 1 ∧
      fieldAt saved.written 28 2 = 24 ∧
      fieldAt saved.written 30 4 = 0 ∧
      (fieldAt saved.written 34 4 : Int) = GetBMPStride image.width * image.height ∧
      fieldAt saved.written 38 4 = 11811 ∧
      fieldAt saved.written 42 4 = 11811 ∧
      fieldAt saved.written 46 4 = 0 ∧
      fieldAt saved.written 50 4 = 0x1000000 := by
  obtain ⟨data, hs, _, _⟩ := SaveBMP_eq unlimited reserved image (fun _ => rfl) hw
  obtain ⟨f0, _, f10, f14, f18, f22, f26, f28, f30, f34, f38, f42, f46, f50⟩ :=
    SaveBMP.header_fields reserved image.width image.height data
  have hl : 54 ≤ (SaveBMP.header reserved image.width image.height ++ data).length := by
    rw [List.length_append, SaveBMP.header_length]; omega
  have sig := getElem?_zero_one_of_fieldAt _ (by omega) f0
  rw [GetBMPStride_natCast image.width hw] at hsize ⊢
  have hsize2 : 4 * ((image.width * 3 + 3) / 4) * image.height < 4294967296 := by
    exact_mod_cast hsize
  refine ⟨_, hs, hl, sig.1, sig.2, f10, f14, ?_, ?_, f26, f28, f30, ?_, f38, f42, f46, f50⟩
  · rw [f18, wrapU32_natCast _ (by have := image.width_lt; omega)]
  · rw [f22, wrapU32_natCast _ (by have := image.height_lt; omega)]
  · rw [f34, Nat.mod_eq_of_lt hsize2]; push_cast; ring

/-- C4, witness: the 1x2 image with row 0 red and row 1 blue. -/
theorem SaveBMP_header_layout_witness :
    redOverBlue.width ≤ 715827881 ∧
    GetBMPStride redOverBlue.width * redOverBlue.height < 4294967296 ∧
    ∃ saved, SaveBMP (some unlimited) (fun _ => 0) redOverBlue = some saved ∧
      54 ≤ saved.written.length ∧
      saved.written[0]? = some 0x42 ∧ saved.written[1]? = some 0x4D ∧
      fieldAt saved.written 10 4 = 54 ∧
      fieldAt saved.written 14 4 = 40 ∧
      fieldAt saved.written 18 4 = redOverBlue.width ∧
      fieldAt saved.written 22 4 = redOverBlue.height ∧
      fieldAt saved.written 26 2 = 1 ∧
      fieldAt saved.written 28 2 = 24 ∧
      fieldAt saved.written 30 4 = 0 ∧
      (fieldAt saved.written 34 4 : Int) = GetBMPStride redOverBlue.width * redOverBlue.height ∧
      fieldAt saved.written 38 4 = 11811 ∧
      fieldAt saved.written 42 4 = 11811 ∧
      fieldAt saved.written 46 4 = 0 ∧
      fieldAt saved.written 50 4 = 0x1000000 :=
  ⟨by decide, by decide,
    SaveBMP_header_layout (fun _ => 0) redOverBlue (by decide) (by decide)⟩

/-- C4, counterexample: for the black image of width 1 and height 1073741824
the image data size is `4 * 1073741824 = 2^32` bytes, and the field at offset
34 of the output of `SaveBMP` holds 0; for the black image of width 715827882
and height 2 the stride computed by `GetBMPStride` is negative, the row buffer
cannot be allocated and `SaveBMP` does not return. -/
theorem SaveBMP_header_layout_overflow :
    (∃ saved, SaveBMP (some unlimited) (fun _ => 0)
        (Image.uniform 1 1073741824 Color.Black (by decide) (by decide)) = some saved ∧
      fieldAt saved.written 34 4 = 0 ∧
      GetBMPStride 1 * 1073741824 = 4294967296) ∧
    SaveBMP (some unlimited) (fun _ => 0)
      (Image.uniform 715827882 2 Color.Black (by decide) (by decide)) = none := by
  obtain ⟨data, hs, _, _⟩ := SaveBMP_eq unlimited (fun _ => 0)
    (Image.uniform 1 1073741824 Color.Black (by decide) (by decide)) (fun _ => rfl) (by decide)
  refine ⟨⟨_, hs, ?_, by decide⟩, by decide⟩
  rw [(SaveBMP.header_fields _ _ _ data).2.2.2.2.2.2.2.2.2.1]
  decide

/-! ## The encoder: file size -/

/-- C5 (amended): for every image of width `w ≤ 715827881` and height `h` with
`54 + stride * h < 2^32`, the 4-byte file-size field at offset 2 of the output
of `SaveBMP` (on a sink that takes every write) equals
`54 + GetBMPStride w * h`. -/
theorem SaveBMP_file_size (reserved : Fin 4 → Byte) (image : Image)
    (hw : image.width ≤ 715827881)
    (hsize : 54 + GetBMPStride image.width * image.height < 4294967296) :
    ∃ saved, SaveBMP (some unlimited) reserved image = some saved ∧
      (fieldAt saved.written 2 4 : Int) = 54 + GetBMPStride image.width * image.height := by
  obtain ⟨data, hs, _, _⟩ := SaveBMP_eq unlimited reserved image (fun _ => rfl) hw
  rw [GetBMPStride_natCast image.width hw] at hsize ⊢
  have hsize2 : 54 + 4 * ((image.width * 3 + 3) / 4) * image.height < 4294967296 := by
    exact_mod_cast hsize
  refine ⟨_, hs, ?_⟩
  rw [(SaveBMP.header_fields reserved image.width image.height data).2.1,
    Nat.mod_eq_of_lt hsize2]
  push_cast; ring

/-- C5, witness: the 1x2 image with row 0 red and row 1 blue. -/
theorem SaveBMP_file_size_witness :
    redOverBlue.width ≤ 715827881 ∧
    54 + GetBMPStride redOverBlue.width * redOverBlue.height < 4294967296 ∧
    ∃ saved, SaveBMP (some unlimited) (fun _ => 0) redOverBlue = some saved ∧
      (fieldAt saved.written 2 4 : Int)
        = 54 + GetBMPStride redOverBlue.width * redOverBlue.height :=
  ⟨by decide, by decide,
    SaveBMP_file_size (fun _ => 0) redOverBlue (by decide) (by decide)⟩

/-- C5, counterexample: for the black image of width 2 and height 536870912 the
file has `54 + 8 * 536870912 = 54 + 2^32` bytes, and the file-size field at
offset 2 of the output of `SaveBMP` holds 54; for the black image of width
715827882 and height 4 the stride computed by `GetBMPStride` is negative, the
row buffer cannot be allocated and `SaveBMP` does not return. -/
theorem SaveBMP_file_size_overflow :
    (∃ saved, SaveBMP (some unlimited) (fun _ => 0)
        (Image.uniform 2 536870912 Color.Black (by decide) (by decide)) = some saved ∧
      fieldAt saved.written 2 4 = 54 ∧
      54 + GetBMPStride 2 * 536870912 = 4294967350) ∧
    SaveBMP (some unlimited) (fun _ => 0)
      (Image.uniform 715827882 4 Color.Black (by decide) (by decide)) = none := by
  obtain ⟨data, hs, _, _⟩ := SaveBMP_eq unlimited (fun _ => 0)
    (Image.uniform 2 536870912 Color.Black (by decide) (by decide)) (fun _ => rfl) (by decide)
  refine ⟨⟨_, hs, ?_, by decide⟩, by decide⟩
  rw [(SaveBMP.header_fields _ _ _ data).2.1]
  decide

/-! ## The decoder on a well-formed file -/

theorem fieldAt_four_lt (bs : List Byte) (off : Nat) : fieldAt bs off 4 < 4294967296 := by
  rw [fieldAt_four]
  simp only [leValue]
  have a := (bs.getD off 0).isLt
  have b := (bs.getD (off + 1) 0).isLt
  have c := (bs.getD (off + 2) 0).isLt
  have d := (bs.getD (off + 3) 0).isLt
  omega

theorem toI32_fieldAt_lt (bs : List Byte) (off : Nat) :
    toI32 (fieldAt bs off 4) < 2147483648 := by
  have := fieldAt_four_lt bs off
  unfold toI32
  split <;> omega

theorem fieldAt_zero_of_getElem? (bs : List Byte) (h : bs[0]? = some 0x42 ∧ bs[1]? = some 0x4D) :
    fieldAt bs 0 2 = 0x4D42 := by
  rw [fieldAt_two, List.getD_eq_getElem?_getD, List.getD_eq_getElem?_getD, h.1, h.2]
  rfl

/-- A file with valid headers, a width in the overflow-free range and all its
rows present is decoded into the image whose pixel `(x, y)` is stored at
row offset `h - 1 - y`, byte offset `3 * x` of the pixel data. -/
theorem LoadBMP_valid (seek : Bool) (content : List Byte) (w h : Nat)
    (hlen : 54 ≤ content.length) (hsig : fieldAt content 0 2 = 0x4D42)
    (hbpp : fieldAt content 28 2 = 24)
    (hwf : toI32 (fieldAt content 18 4) = w) (hhf : toI32 (fieldAt content 22 4) = h)
    (hw0 : 0 < w) (hw : w ≤ 715827881) (hh0 : 0 < h)
    (hdata : fieldAt content 10 4 + h * (4 * ((w * 3 + 3) / 4)) ≤ content.length) :
    ∃ img, LoadBMP seek (some content) = some img ∧ img.width = w ∧ img.height = h ∧
      ∀ y x, y < h → x < w → img.pixels y x =
        pixelAt content (fieldAt content 10 4 + (h - 1 - y) * (4 * ((w * 3 + 3) / 4)) + x * 3) := by
  have hh : h < 2147483648 := by
    have := toI32_fieldAt_lt content 22
    rw [hhf] at this
    exact_mod_cast this
  have hoff : fieldAt content 10 4 ≤ content.length := by omega
  obtain ⟨r1, hr1, hw1, hh1, hp1⟩ := LoadBMP.rows_reads content seek w (4 * ((w * 3 + 3) / 4))
    (by omega) h (fieldAt content 10 4) 40 (Image.new w h Color.Black) hdata
  refine ⟨r1, ?_, ?_, ?_, fun y x hy hx => ?_⟩
  · rw [LoadBMP_unfold, if_neg (by rw [hsig]; simp; omega), if_neg (by rw [hbpp]; simp; omega),
      if_neg (by simp [hoff]), hwf, hhf, if_neg (by omega), GetBMPStride_natCast w hw,
      if_neg (by omega)]
    simp only [Int.toNat_ofNat]
    exact hr1
  · rw [hw1]
    show (w : Int).toNat % 2147483648 = w
    rw [Int.toNat_ofNat]; omega
  · rw [hh1]
    show (h : Int).toNat % 2147483648 = h
    rw [Int.toNat_ofNat]; omega
  · rw [hp1 y x, if_pos ⟨hy, hx⟩]

/-- C6 (amended): for every byte stream of at least 54 bytes whose signature is
"BM", whose bits-per-pixel field is 24, whose width `w` and height `h` are both
positive, with `w ≤ 715827881`, and which contains at least
`off + GetBMPStride w * h` bytes, where `off` is the declared data offset,
`LoadBMP` returns a non-empty image of width `w` and height `h` in which, for
every `y < h` and `x < w`, pixel `(x, y)` has blue, green, red equal to the
stream bytes at `off + (h - 1 - y) * stride + 3 * x + 0, + 1, + 2`. -/
theorem LoadBMP_spec (seek : Bool) (content : List Byte)
    (hlen : 54 ≤ content.length)
    (hsig : content[0]? = some 0x42 ∧ content[1]? = some 0x4D)
    (hbpp : fieldAt content 28 2 = 24)
    (hw0 : 0 < toI32 (fieldAt content 18 4)) (hw : toI32 (fieldAt content 18 4) ≤ 715827881)
    (hh0 : 0 < toI32 (fieldAt content 22 4))
    (hdata : (fieldAt content 10 4 : Int)
      + GetBMPStride (toI32 (fieldAt content 18 4)) * toI32 (fieldAt content 22 4)
      ≤ content.length) :
    ∃ img, LoadBMP seek (some content) = some img ∧
      (img.width : Int) = toI32 (fieldAt content 18 4) ∧
      (img.height : Int) = toI32 (fieldAt content 22 4) ∧
      0 < img.width ∧ 0 < img.height ∧
      ∀ y x, y < img.height → x < img.width →
        content[fieldAt content 10 4 + (img.height - 1 - y) * (GetBMPStride img.width).toNat
          + 3 * x + 0]? = some (img.pixels y x).b ∧
        content[fieldAt content 10 4 + (img.height - 1 - y) * (GetBMPStride img.width).toNat
          + 3 * x + 1]? = some (img.pixels y x).g ∧
        content[fieldAt content 10 4 + (img.height - 1 - y) * (GetBMPStride img.width).toNat
          + 3 * x + 2]? = some (img.pixels y x).r := by
  obtain ⟨w, hwf⟩ := Int.eq_ofNat_of_zero_le (Int.le_of_lt hw0)
  obtain ⟨h, hhf⟩ := Int.eq_ofNat_of_zero_le (Int.le_of_lt hh0)
  rw [hwf] at hw0 hw hdata
  rw [hhf] at hh0 hdata
  have hw0n : 0 < w := by exact_mod_cast hw0
  have hwn : w ≤ 715827881 := by exact_mod_cast hw
  have hh0n : 0 < h := by exact_mod_cast hh0
  rw [GetBMPStride_natCast w hwn] at hdata
  have hdatan : fieldAt content 10 4 + h * (4 * ((w * 3 + 3) / 4)) ≤ content.length := by
    rw [Nat.mul_comm h]; exact_mod_cast hdata
  obtain ⟨img, hi, hiw, hih, hp⟩ := LoadBMP_valid seek content w h hlen
    (fieldAt_zero_of_getElem? content hsig) hbpp hwf hhf hw0n hwn hh0n hdatan
  refine ⟨img, hi, by rw [hiw, hwf], by rw [hih, hhf], by omega, by omega, ?_⟩
  rw [hiw, hih, GetBMPStride_toNat w hwn]
  intro y x hy hx
  have hrow : (h - 1 - y) * (4 * ((w * 3 + 3) / 4)) + 4 * ((w * 3 + 3) / 4)
      ≤ h * (4 * ((w * 3 + 3) / 4)) := by
    rw [← Nat.succ_mul]
    exact Nat.mul_le_mul_right _ (by omega)
  rw [hp y x hy hx]
  simp only [pixelAt]
  refine ⟨?_, ?_, ?_⟩
  · rw [getElem?_eq_some_getD content _ (by omega)]; congr 2; omega
  · rw [getElem?_eq_some_getD content _ (by omega)]; congr 2; omega
  · rw [getElem?_eq_some_getD content _ (by omega)]; congr 2; omega

/-- C6, witness: a file of 62 bytes that holds a 1x2 image. -/
theorem LoadBMP_spec_witness :
    54 ≤ smallFile.length ∧
    (smallFile[0]? = some 0x42 ∧ smallFile[1]? = some 0x4D) ∧
    fieldAt smallFile 28 2 = 24 ∧
    0 < toI32 (fieldAt smallFile 18 4) ∧ toI32 (fieldAt smallFile 18 4) ≤ 715827881 ∧
    0 < toI32 (fieldAt smallFile 22 4) ∧
    (fieldAt smallFile 10 4 : Int)
      + GetBMPStride (toI32 (fieldAt smallFile 18 4)) * toI32 (fieldAt smallFile 22 4)
      ≤ smallFile.length ∧
    ∃ img, LoadBMP true (some smallFile) = some img ∧
      (img.width : Int) = toI32 (fieldAt smallFile 18 4) ∧
      (img.height : Int) = toI32 (fieldAt smallFile 22 4) ∧
      0 < img.width ∧ 0 < img.height ∧
      ∀ y x, y < img.height → x < img.width →
        smallFile[fieldAt smallFile 10 4 + (img.height - 1 - y) * (GetBMPStride img.width).toNat
          + 3 * x + 0]? = some (img.pixels y x).b ∧
        smallFile[fieldAt smallFile 10 4 + (img.height - 1 - y) * (GetBMPStride img.width).toNat
          + 3 * x + 1]? = some (img.pixels y x).g ∧
        smallFile[fieldAt smallFile 10 4 + (img.height - 1 - y) * (GetBMPStride img.width).toNat
          + 3 * x + 2]? = some (img.pixels y x).r :=
  ⟨by decide, by decide, by decide, by decide, by decide, by decide, by decide,
    LoadBMP_spec true smallFile (by decide) (by decide) (by decide) (by decide) (by decide)
      (by decide) (by decide)⟩

theorem wideRowFile_length : wideRowFile.length = 54 + 2147483648 := by
  rw [wideRowFile, List.length_append, SaveBMP.header_length, List.length_replicate]

/-- C6, counterexample: a file of `54 + 2^31` bytes with valid headers that
declares the width 715827882 and the height 1 and holds its one row in full.
`GetBMPStride` returns a negative stride for this width, the row buffer cannot
be allocated and `LoadBMP` does not return an image. -/
theorem LoadBMP_spec_overflow :
    54 ≤ wideRowFile.length ∧
    (wideRowFile[0]? = some 0x42 ∧ wideRowFile[1]? = some 0x4D) ∧
    fieldAt wideRowFile 28 2 = 24 ∧
    toI32 (fieldAt wideRowFile 18 4) = 715827882 ∧
    toI32 (fieldAt wideRowFile 22 4) = 1 ∧
    fieldAt wideRowFile 10 4 = 54 ∧
    (54 : Int) + GetBMPStride 715827882 * 1 ≤ wideRowFile.length ∧
    (54 : Int) + 4 * ⌈((715827882 : Int) : ℚ) * 3 / 4⌉ * 1 ≤ wideRowFile.length ∧
    LoadBMP true (some wideRowFile) = none ∧ LoadBMP false (some wideRowFile) = none := by
  obtain ⟨f0, _, f10, _, f18, f22, _, f28, _⟩ :=
    SaveBMP.header_fields (fun _ => 0) 715827882 1 (List.replicate 2147483648 0)
  have hl := wideRowFile_length
  have e18 : toI32 (fieldAt wideRowFile 18 4) = 715827882 := by
    rw [wideRowFile, f18]; decide
  have e22 : toI32 (fieldAt wideRowFile 22 4) = 1 := by
    rw [wideRowFile, f22]; decide
  have e10 : fieldAt wideRowFile 10 4 = 54 := f10
  have e0 : fieldAt wideRowFile 0 2 = 0x4D42 := f0
  have e28 : fieldAt wideRowFile 28 2 = 24 := f28
  have es : GetBMPStride 715827882 = -2147483644 := by decide
  have load : ∀ seek, LoadBMP seek (some wideRowFile) = none := by
    intro seek
    rw [LoadBMP_unfold, if_neg (by rw [e0, hl]; simp), if_neg (by rw [e28, hl]; simp),
      if_neg (by rw [e10, hl]; simp), e18, e22, if_neg (by decide), es, if_pos (by decide)]
  refine ⟨by rw [hl]; omega, getElem?_zero_one_of_fieldAt _ (by rw [hl]; omega) e0, e28, e18,
    e22, e10, ?_, ?_, load true, load false⟩
  · rw [es, hl]; decide
  · have c := ceil_three_quarters 715827882
    rw [show ((715827882 : Nat) : Int) = (715827882 : Int) from rfl] at c
    rw [c, hl]; decide

/-! ## Round trip -/

theorem toI32_wrapU32_natCast (n : Nat) (h : n < 2147483648) :
    toI32 (wrapU32 (n : Int)) = n := by
  rw [wrapU32_natCast n (by omega), toI32, if_pos h]

/-- C1 (amended): for every image with `0 < width ≤ 715827881` and
`height > 0`, `SaveBMP` (on a sink that takes every write) returns `true` and
`LoadBMP` applied to the byte stream it produced returns an image with the
same width, the same height and the same `(r, g, b)` at every pixel `(x, y)`. -/
theorem LoadBMP_SaveBMP (reserved : Fin 4 → Byte) (seek : Bool) (image : Image)
    (hw0 : 0 < image.width) (hw : image.width ≤ 715827881) (hh0 : 0 < image.height) :
    ∃ saved loaded, SaveBMP (some unlimited) reserved image = some saved ∧ saved.ok = true ∧
      LoadBMP seek (some saved.written) = some loaded ∧
      loaded.width = image.width ∧ loaded.height = image.height ∧
      ∀ y x, y < image.height → x < image.width →
        (loaded.pixels y x).r = (image.pixels y x).r ∧
        (loaded.pixels y x).g = (image.pixels y x).g ∧
        (loaded.pixels y x).b = (image.pixels y x).b := by
  obtain ⟨data, hs, hl, hg⟩ := SaveBMP_eq unlimited reserved image (fun _ => rfl) hw
  obtain ⟨f0, _, f10, _, f18, f22, _, f28, _⟩ :=
    SaveBMP.header_fields reserved image.width image.height data
  have hlen : (SaveBMP.header reserved image.width image.height ++ data).length
      = 54 + image.height * (4 * ((image.width * 3 + 3) / 4)) := by
    rw [List.length_append, SaveBMP.header_length, hl]
  obtain ⟨loaded, hload, hlw, hlh, hp⟩ := LoadBMP_valid seek
    (SaveBMP.header reserved image.width image.height ++ data) image.width image.height
    (by omega) f0 f28
    (by rw [f18, toI32_wrapU32_natCast _ image.width_lt])
    (by rw [f22, toI32_wrapU32_natCast _ image.height_lt])
    hw0 hw hh0 (by rw [f10, hlen])
  refine ⟨_, loaded, hs, rfl, hload, hlw, hlh, fun y x hy hx => ?_⟩
  have key : ∀ k, k < 3 →
      (SaveBMP.header reserved image.width image.height ++ data).getD
        (54 + (image.height - 1 - y) * (4 * ((image.width * 3 + 3) / 4)) + x * 3 + k) 0
        = (image.pixels y x).channel k := by
    intro k hk
    rw [List.getD_eq_getElem?_getD,
      show 54 + (image.height - 1 - y) * (4 * ((image.width * 3 + 3) / 4)) + x * 3 + k
        = 54 + ((image.height - 1 - y) * (4 * ((image.width * 3 + 3) / 4)) + (x * 3 + k)) by omega,
      getElem?_header_append, hg y hy (x * 3 + k) (by omega), if_pos (by omega),
      show (x * 3 + k) / 3 = x by omega, show (x * 3 + k) % 3 = k by omega]
    rfl
  rw [hp y x hy hx, f10]
  exact ⟨key 2 (by decide), key 1 (by decide), key 0 (by decide)⟩

/-- C1, witness: the 1x2 image with row 0 red and row 1 blue. -/
theorem LoadBMP_SaveBMP_witness :
    0 < redOverBlue.width ∧ redOverBlue.width ≤ 715827881 ∧
    0 < redOverBlue.height ∧
    ∃ saved loaded, SaveBMP (some unlimited) (fun _ => 0) redOverBlue = some saved ∧
      saved.ok = true ∧
      LoadBMP true (some saved.written) = some loaded ∧
      loaded.width = redOverBlue.width ∧ loaded.height = redOverBlue.height ∧
      ∀ y x, y < redOverBlue.height → x < redOverBlue.width →
        (loaded.pixels y x).r = (redOverBlue.pixels y x).r ∧
        (loaded.pixels y x).g = (redOverBlue.pixels y x).g ∧
        (loaded.pixels y x).b = (redOverBlue.pixels y x).b :=
  ⟨by decide, by decide, by decide,
    LoadBMP_SaveBMP (fun _ => 0) true redOverBlue (by decide) (by decide) (by decide)⟩

/-- C1, counterexample: the red image of width 715827882 and height 3 has
positive width and height, but `SaveBMP` does not return for it (the stride
computed by `GetBMPStride` is negative and the row buffer cannot be allocated),
so there is no byte stream that `LoadBMP` could decode into the same image. -/
theorem LoadBMP_SaveBMP_overflow :
    0 < (Image.uniform 715827882 3 ⟨255, 0, 0⟩ (by decide) (by decide)).width ∧
    0 < (Image.uniform 715827882 3 ⟨255, 0, 0⟩ (by decide) (by decide)).height ∧
    ¬ ∃ saved loaded, SaveBMP (some unlimited) (fun _ => 0)
        (Image.uniform 715827882 3 ⟨255, 0, 0⟩ (by decide) (by decide)) = some saved ∧
      LoadBMP true (some saved.written) = some loaded ∧
      loaded.width = 715827882 ∧ loaded.height = 3 := by
  have e : SaveBMP (some unlimited) (fun _ => 0)
      (Image.uniform 715827882 3 ⟨255, 0, 0⟩ (by decide) (by decide)) = none := by decide
  refine ⟨by decide, by decide, ?_⟩
  rw [e]
  rintro ⟨saved, loaded, h, _⟩
  exact absurd h (by simp)

/-! ## The decoder on a truncated file -/

/-- C7 (amended): for every byte stream with otherwise valid headers (signature
"BM", 24 bits per pixel, width `0 < w ≤ 715827881`, height `h > 0`, data offset
`off`) that contains fewer than `off + GetBMPStride w * h` bytes, `LoadBMP`
returns the empty image, never an image with some rows filled and the rest left
at the black default. -/
theorem LoadBMP_truncated (seek : Bool) (content : List Byte)
    (hsig : content[0]? = some 0x42 ∧ content[1]? = some 0x4D)
    (hbpp : fieldAt content 28 2 = 24)
    (hw0 : 0 < toI32 (fieldAt content 18 4)) (hw : toI32 (fieldAt content 18 4) ≤ 715827881)
    (hh0 : 0 < toI32 (fieldAt content 22 4))
    (htrunc : (content.length : Int) < (fieldAt content 10 4 : Int)
      + GetBMPStride (toI32 (fieldAt content 18 4)) * toI32 (fieldAt content 22 4)) :
    LoadBMP seek (some content) = some Image.empty := by
  obtain ⟨w, hwf⟩ := Int.eq_ofNat_of_zero_le (Int.le_of_lt hw0)
  obtain ⟨h, hhf⟩ := Int.eq_ofNat_of_zero_le (Int.le_of_lt hh0)
  rw [LoadBMP_unfold]
  rw [hwf] at hw htrunc ⊢
  rw [hhf] at htrunc ⊢
  have hwn : w ≤ 715827881 := by exact_mod_cast hw
  rw [GetBMPStride_natCast w hwn] at htrunc ⊢
  have htn : content.length < fieldAt content 10 4 + h * (4 * ((w * 3 + 3) / 4)) := by
    rw [Nat.mul_comm h]; exact_mod_cast htrunc
  have hpos : 0 < h * (4 * ((w * 3 + 3) / 4)) := by
    have hw0n : 0 < w := by rw [hwf] at hw0; exact_mod_cast hw0
    have hh0n : 0 < h := by rw [hhf] at hh0; exact_mod_cast hh0
    exact Nat.mul_pos hh0n (by omega)
  split_ifs
  all_goals first
    | rfl
    | omega
    | (simp only [Int.toNat_ofNat]
       exact LoadBMP.rows_truncated content seek w (4 * ((w * 3 + 3) / 4)) (by omega) h
         (fieldAt content 10 4) 40 _ (by omega))

/-- C7, witness: a file of 60 bytes that declares a 1x2 image and ends in the
middle of its second row. -/
theorem LoadBMP_truncated_witness :
    (truncatedFile[0]? = some 0x42 ∧ truncatedFile[1]? = some 0x4D) ∧
    fieldAt truncatedFile 28 2 = 24 ∧
    0 < toI32 (fieldAt truncatedFile 18 4) ∧ toI32 (fieldAt truncatedFile 18 4) ≤ 715827881 ∧
    0 < toI32 (fieldAt truncatedFile 22 4) ∧
    (truncatedFile.length : Int) < (fieldAt truncatedFile 10 4 : Int)
      + GetBMPStride (toI32 (fieldAt truncatedFile 18 4)) * toI32 (fieldAt truncatedFile 22 4) ∧
    LoadBMP true (some truncatedFile) = some Image.empty :=
  ⟨by decide, by decide, by decide, by decide, by decide, by decide,
    LoadBMP_truncated true truncatedFile (by decide) (by decide) (by decide) (by decide)
      (by decide) (by decide)⟩

theorem LoadBMP.fill_none (buffer : List Byte) (y n x : Nat) (result : Image)
    (h : buffer.length ≤ x * 3 + 2) : LoadBMP.fill buffer y (n + 1) x result = none := by
  rw [LoadBMP.fill]
  rw [List.getElem?_eq_none h]
  cases buffer[x * 3 + 0]? with
  | none => rfl
  | some vb =>
    rw [Option.some_bind]
    cases buffer[x * 3 + 1]? with
    | none => rfl
    | some vg => rfl

/-- A row buffer shorter than `3 * width` bytes: the inner loop of `LoadBMP`
reads beyond its end. -/
theorem LoadBMP.fill_overrun (buffer : List Byte) (y n : Nat) :
    ∀ (x : Nat) (result : Image), x * 3 ≤ buffer.length → buffer.length < (x + n) * 3 →
      LoadBMP.fill buffer y n x result = none := by
  induction n with
  | zero => intro x result h1 h2; omega
  | succ n ih =>
    intro x result h1 h2
    by_cases c : buffer.length ≤ x * 3 + 2
    · exact LoadBMP.fill_none buffer y n x result c
    · rw [LoadBMP.fill, getElem?_eq_some_getD buffer (x * 3 + 0) (by omega), Option.some_bind,
        getElem?_eq_some_getD buffer (x * 3 + 1) (by omega), Option.some_bind,
        getElem?_eq_some_getD buffer (x * 3 + 2) (by omega), Option.some_bind]
      exact ih (x + 1) _ (by omega) (by omega)

/-- A stride shorter than `3 * width` bytes: once a row has been read in full,
`LoadBMP` reads beyond the end of its row buffer. -/
theorem LoadBMP.rows_overrun (content : List Byte) (seek : Bool) (width S m p g : Nat)
    (result : Image) (hS : S < width * 3) (hp : p + S ≤ content.length) :
    LoadBMP.rows width S (m + 1)
      { file := content, seekBeyondEnd := seek, pos := p, failbit := false,
        eofbit := false, gcount := g } result = none := by
  rw [LoadBMP.rows, IFStream.read_mk content seek p g S hp]
  dsimp only
  rw [if_neg (Nat.lt_irrefl S), LoadBMP.fill_overrun _ _ _ _ _ (by omega)
    (by rw [List.length_take, List.length_drop]; omega)]
  rfl

/-- C7, counterexample: a file of 58 bytes with valid headers that declares the
width 1431655766 and the height 2 and holds four bytes of pixel data, fewer
than the two rows it declares. `GetBMPStride` returns 4 for this width; the
first row is read in full and the loop over its pixels then reads beyond the
four bytes of the row buffer: `LoadBMP` does not return the empty image. And a
file of 54 bytes with valid headers that declares the width 715827882 and the
height 1 and holds no pixel data at all: `GetBMPStride` returns a negative
stride, the row buffer cannot be allocated and `LoadBMP` does not return. -/
theorem LoadBMP_truncated_overflow :
    ((shortWideFile[0]? = some 0x42 ∧ shortWideFile[1]? = some 0x4D) ∧
      fieldAt shortWideFile 28 2 = 24 ∧
      toI32 (fieldAt shortWideFile 18 4) = 1431655766 ∧
      toI32 (fieldAt shortWideFile 22 4) = 2 ∧
      fieldAt shortWideFile 10 4 = 54 ∧
      shortWideFile.length = 58 ∧
      GetBMPStride 1431655766 = 4 ∧
      LoadBMP true (some shortWideFile) = none ∧ LoadBMP false (some shortWideFile) = none) ∧
    ((wideHeaderFile[0]? = some 0x42 ∧ wideHeaderFile[1]? = some 0x4D) ∧
      fieldAt wideHeaderFile 28 2 = 24 ∧
      toI32 (fieldAt wideHeaderFile 18 4) = 715827882 ∧
      toI32 (fieldAt wideHeaderFile 22 4) = 1 ∧
      fieldAt wideHeaderFile 10 4 = 54 ∧
      wideHeaderFile.length = 54 ∧
      (54 : Int) < 54 + 4 * ⌈((715827882 : Int) : ℚ) * 3 / 4⌉ * 1 ∧
      LoadBMP true (some wideHeaderFile) = none ∧
      LoadBMP false (some wideHeaderFile) = none) := by
  constructor
  · obtain ⟨f0, _, f10, _, f18, f22, _, f28, _⟩ :=
      SaveBMP.header_fields (fun _ => 0) 1431655766 2 [0, 0, 0, 0]
    have hl : shortWideFile.length = 58 := by
      rw [shortWideFile, List.length_append, SaveBMP.header_length]; rfl
    have e18 : toI32 (fieldAt shortWideFile 18 4) = 1431655766 := by
      rw [shortWideFile, f18]; decide
    have e22 : toI32 (fieldAt shortWideFile 22 4) = 2 := by
      rw [shortWideFile, f22]; decide
    have e10 : fieldAt shortWideFile 10 4 = 54 := f10
    have e0 : fieldAt shortWideFile 0 2 = 0x4D42 := f0
    have e28 : fieldAt shortWideFile 28 2 = 24 := f28
    have es : GetBMPStride 1431655766 = 4 := by decide
    have load : ∀ seek, LoadBMP seek (some shortWideFile) = none := by
      intro seek
      rw [LoadBMP_unfold, if_neg (by rw [e0, hl]; simp), if_neg (by rw [e28, hl]; simp),
        if_neg (by rw [e10, hl]; simp), e18, e22, if_neg (by decide), es, if_neg (by decide),
        e10]
      exact LoadBMP.rows_overrun shortWideFile seek 1431655766 4 1 54 40 _ (by decide)
        (by rw [hl])
    exact ⟨getElem?_zero_one_of_fieldAt _ (by rw [hl]; omega) e0, e28, e18, e22, e10, hl, es,
      load true, load false⟩
  · obtain ⟨f0, _, f10, _, f18, f22, _, f28, _⟩ :=
      SaveBMP.header_fields (fun _ => 0) 715827882 1 []
    rw [List.append_nil] at f0 f10 f18 f22 f28
    have hl : wideHeaderFile.length = 54 := SaveBMP.header_length _ _ _
    have e18 : toI32 (fieldAt wideHeaderFile 18 4) = 715827882 := by
      rw [wideHeaderFile, f18]; decide
    have e22 : toI32 (fieldAt wideHeaderFile 22 4) = 1 := by
      rw [wideHeaderFile, f22]; decide
    have e10 : fieldAt wideHeaderFile 10 4 = 54 := f10
    have e0 : fieldAt wideHeaderFile 0 2 = 0x4D42 := f0
    have e28 : fieldAt wideHeaderFile 28 2 = 24 := f28
    have es : GetBMPStride 715827882 = -2147483644 := by decide
    have load : ∀ seek, LoadBMP seek (some wideHeaderFile) = none := by
      intro seek
      rw [LoadBMP_unfold, if_neg (by rw [e0, hl]; simp), if_neg (by rw [e28, hl]; simp),
        if_neg (by rw [e10, hl]; simp), e18, e22, if_neg (by decide), es, if_pos (by decide)]
    refine ⟨getElem?_zero_one_of_fieldAt _ (by rw [hl]; omega) e0, e28, e18, e22, e10, hl, ?_,
      load true, load false⟩
    have c := ceil_three_quarters 715827882
    rw [show ((715827882 : Nat) : Int) = (715827882 : Int) from rfl] at c
    rw [c]; decide

/-! ## The decoder on a malformed file -/

/-- C8: for every byte stream that is shorter than 14 bytes or whose first two
bytes are not 0x42 0x4D ("BM"), `LoadBMP` returns the empty image, whatever the
rest of the stream contains. -/
theorem LoadBMP_bad_signature (seek : Bool) (content : List Byte)
    (h : content.length < 14 ∨ content[0]? ≠ some 0x42 ∨ content[1]? ≠ some 0x4D) :
    LoadBMP seek (some content) = some Image.empty := by
  rw [LoadBMP_unfold, if_pos]
  by_cases c : content.length < 14
  · exact Or.inl c
  · refine Or.inr fun hf => ?_
    have sig := getElem?_zero_one_of_fieldAt content (by omega) hf
    rcases h with h | h | h
    · exact c h
    · exact h sig.1
    · exact h sig.2

/-- C8, witness: a stream that starts with "XX". -/
theorem LoadBMP_bad_signature_witness :
    (badSignatureFile.length < 14 ∨ badSignatureFile[0]? ≠ some 0x42 ∨
      badSignatureFile[1]? ≠ some 0x4D) ∧
    badSignatureFile.take 2 = [0x58, 0x58] ∧
    LoadBMP true (some badSignatureFile) = some Image.empty :=
  ⟨by decide, by decide, LoadBMP_bad_signature true badSignatureFile (by decide)⟩

/-- C9: for every byte stream that has fewer than 54 bytes, or whose
bits-per-pixel field (2 bytes at offset 28) is any value other than 24,
`LoadBMP` returns the empty image. -/
theorem LoadBMP_bad_depth (seek : Bool) (content : List Byte)
    (h : content.length < 54 ∨ fieldAt content 28 2 ≠ 24) :
    LoadBMP seek (some content) = some Image.empty := by
  rw [LoadBMP_unfold]
  split_ifs <;> rfl

/-- C9, witness: a stream that declares 8 bits per pixel. -/
theorem LoadBMP_bad_depth_witness :
    (eightBitFile.length < 54 ∨ fieldAt eightBitFile 28 2 ≠ 24) ∧
    fieldAt eightBitFile 28 2 = 8 ∧
    LoadBMP true (some eightBitFile) = some Image.empty :=
  ⟨by decide, by decide, LoadBMP_bad_depth true eightBitFile (by decide)⟩

/-- C10: for every byte stream whose declared width or declared height (signed
32-bit fields at offsets 18 and 22) is zero or negative, `LoadBMP` returns the
empty image; a negative height is rejected, not read as top-down row order. -/
theorem LoadBMP_bad_geometry (seek : Bool) (content : List Byte)
    (h : toI32 (fieldAt content 18 4) ≤ 0 ∨ toI32 (fieldAt content 22 4) ≤ 0) :
    LoadBMP seek (some content) = some Image.empty := by
  rw [LoadBMP_unfold]
  split_ifs <;> rfl

/-- C10, witness: a stream that declares the height -2. -/
theorem LoadBMP_bad_geometry_witness :
    (toI32 (fieldAt negativeHeightFile 18 4) ≤ 0 ∨
      toI32 (fieldAt negativeHeightFile 22 4) ≤ 0) ∧
    toI32 (fieldAt negativeHeightFile 22 4) = -2 ∧
    LoadBMP true (some negativeHeightFile) = some Image.empty :=
  ⟨by decide, by decide, LoadBMP_bad_geometry true negativeHeightFile (by decide)⟩

/-! ## The overflow-free range of the stride -/

/-- C19: the 32-bit signed computation in `GetBMPStride` is overflow-free
exactly on a bounded range: for every width `w` with `0 ≤ w ≤ 715827881` the
intermediate value `w * 3 + 3` and the result both fit in a signed 32-bit
integer, so the computed stride equals the mathematical `4 * ceil (3 * w / 4)`;
for `w = 715827882`, and for every larger width, the intermediate `w * 3 + 3`
exceeds `2^31 - 1`. -/
theorem GetBMPStride_overflow_free :
    (∀ w : Int, 0 ≤ w → w ≤ 715827881 →
      w * 3 + 3 ≤ 2147483647 ∧ 4 * ⌈(w : ℚ) * 3 / 4⌉ ≤ 2147483647 ∧
      GetBMPStride w = 4 * ⌈(w : ℚ) * 3 / 4⌉) ∧
    (2147483647 : Int) < 715827882 * 3 + 3 ∧
    (∀ w : Int, 715827881 < w → 2147483647 < w * 3 + 3) ∧
    GetBMPStride 715827882 ≠ 4 * ⌈((715827882 : Int) : ℚ) * 3 / 4⌉ := by
  refine ⟨fun w h0 h1 => ?_, by decide, fun w h => by omega, ?_⟩
  · obtain ⟨n, rfl⟩ := Int.eq_ofNat_of_zero_le h0
    have hn : n ≤ 715827881 := by omega
    rw [GetBMPStride_natCast n hn, ceil_three_quarters n]
    refine ⟨by omega, ?_, by push_cast; ring⟩
    have : 4 * ((n * 3 + 3) / 4) ≤ n * 3 + 3 := Nat.mul_div_le _ _
    omega
  · have c := ceil_three_quarters 715827882
    rw [show ((715827882 : Nat) : Int) = (715827882 : Int) from rfl] at c
    rw [c]; decide

/-- C19, witness: the width 100. -/
theorem GetBMPStride_overflow_free_witness :
    (0 : Int) ≤ 100 ∧ (100 : Int) ≤ 715827881 ∧
    ((100 : Int) * 3 + 3 ≤ 2147483647 ∧ 4 * ⌈((100 : Int) : ℚ) * 3 / 4⌉ ≤ 2147483647 ∧
      GetBMPStride 100 = 4 * ⌈((100 : Int) : ℚ) * 3 / 4⌉) :=
  ⟨by decide, by decide, GetBMPStride_overflow_free.1 100 (by decide) (by decide)⟩

/-! ## The encoder: reserved bytes, padding, sizes -/

theorem SaveBMP.header_reserved (reserved : Fin 4 → Byte) (w h : Nat) (data : List Byte) :
    (SaveBMP.header reserved w h ++ data)[6]? = some (reserved 0) ∧
    (SaveBMP.header reserved w h ++ data)[7]? = some (reserved 1) ∧
    (SaveBMP.header reserved w h ++ data)[8]? = some (reserved 2) ∧
    (SaveBMP.header reserved w h ++ data)[9]? = some (reserved 3) := by
  simp only [SaveBMP.header, BitmapFileHeader.toBytes, BitmapInfoHeader.toBytes, leBytes,
    List.ofFn_succ, List.ofFn_zero, List.cons_append, List.nil_append, List.getElem?_cons_succ,
    List.getElem?_cons_zero]
  exact ⟨trivial, rfl, rfl, rfl⟩

/-- The 4 bytes at offsets 6 to 9 of the output of `SaveBMP` are the bytes
that the never-assigned member `reserved` of the local header happens to
hold. -/
theorem SaveBMP_reserved (reserved : Fin 4 → Byte) (image : Image)
    (hw : image.width ≤ 715827881) :
    ∃ saved, SaveBMP (some unlimited) reserved image = some saved ∧
      saved.written[6]? = some (reserved 0) ∧ saved.written[7]? = some (reserved 1) ∧
      saved.written[8]? = some (reserved 2) ∧ saved.written[9]? = some (reserved 3) := by
  obtain ⟨data, hs, _, _⟩ := SaveBMP_eq unlimited reserved image (fun _ => rfl) hw
  exact ⟨_, hs, SaveBMP.header_reserved reserved image.width image.height data⟩

/-- C13 (the code at the failing input): when the never-assigned member
`reserved` of the local header holds 0xCC 0xCC 0xCC 0xCC, `SaveBMP` writes
these four bytes, not zeros, at offsets 6 to 9 of the file of the 1x2 image. -/
theorem SaveBMP_reserved_indeterminate :
    (SaveBMP (some unlimited) (fun _ => 0xCC) redOverBlue).map
      (fun s => (s.written.drop 6).take 4) = some [0xCC, 0xCC, 0xCC, 0xCC] := by
  decide

theorem SaveBMP.header_zero_height (reserved : Fin 4 → Byte) (w : Nat) :
    SaveBMP.header reserved w 0
      = BitmapFileHeader.toBytes { file_size := 54, reserved := reserved, padding := 14 + 40 }
        ++ BitmapInfoHeader.toBytes { img_width := w, img_height := 0, data_size := 0 } := by
  have a : (54 + 4 * ((w * 3 + 3) / 4) * 0) % 4294967296 = 54 := by
    rw [Nat.mul_zero, Nat.add_zero]
  have b : (4 * ((w * 3 + 3) / 4) * 0) % 4294967296 = 0 := by
    rw [Nat.mul_zero, Nat.zero_mod]
  rw [SaveBMP.header, a, b]
  rfl

/-- An image without rows: `SaveBMP` writes the two headers and nothing else,
provided the row buffer can be allocated. -/
theorem SaveBMP_zero_height (reserved : Fin 4 → Byte) (image : Image)
    (hh : image.height = 0) (hs : 0 ≤ GetBMPStride image.width) :
    SaveBMP (some unlimited) reserved image
      = some ⟨true, SaveBMP.header reserved image.width 0⟩ := by
  have e2 : ¬ (GetBMPStride (image.width : Int) < 0) := by omega
  have e3 : wrapU32 (((14 + 40 : Nat) : Int) + wrapI32 0) = 54 := by decide
  have e4 : wrapU32 (wrapI32 0) = 0 := by decide
  simp only [SaveBMP, hh, BitmapFileHeader.sizeof, BitmapInfoHeader.sizeof, Nat.cast_zero,
    mul_zero]
  rw [if_neg e2, e3, e4]
  simp only [OFStream.write_mk _ _ _ (fun _ => rfl : ∀ m, unlimited m = true), SaveBMP.rows]
  rw [SaveBMP.header_zero_height, Option.some_bind, List.nil_append]

/-- C14 (amended): for every image whose width is 0 or whose height is 0, and
for whose width `GetBMPStride` is not negative (as it is for every width up to
715827881), the output of `SaveBMP` is exactly 54 bytes long (the two headers
only, no pixel data) and its image-data-size field at offset 34 is 0. -/
theorem SaveBMP_empty_image (reserved : Fin 4 → Byte) (image : Image)
    (hz : image.width = 0 ∨ image.height = 0) (hs : 0 ≤ GetBMPStride image.width) :
    ∃ saved, SaveBMP (some unlimited) reserved image = some saved ∧ saved.ok = true ∧
      saved.written.length = 54 ∧ fieldAt saved.written 34 4 = 0 := by
  by_cases hh : image.height = 0
  · refine ⟨_, SaveBMP_zero_height reserved image hh hs, rfl, SaveBMP.header_length _ _ _, ?_⟩
    have f := (SaveBMP.header_fields reserved image.width 0 []).2.2.2.2.2.2.2.2.2.1
    rw [List.append_nil] at f
    rw [f, Nat.mul_zero, Nat.zero_mod]
  · have hw : image.width = 0 := by
      rcases hz with h | h
      · exact h
      · exact absurd h hh
    obtain ⟨data, hsv, hl, _⟩ := SaveBMP_eq unlimited reserved image (fun _ => rfl) (by omega)
    have hd : data.length = 0 := by
      rw [hl, hw, show 4 * ((0 * 3 + 3) / 4) = 0 from rfl, Nat.mul_zero]
    refine ⟨_, hsv, rfl, ?_, ?_⟩
    · rw [List.length_append, SaveBMP.header_length, hd]
    · rw [(SaveBMP.header_fields reserved image.width image.height data).2.2.2.2.2.2.2.2.2.1, hw,
        show 4 * ((0 * 3 + 3) / 4) = 0 from rfl, Nat.zero_mul, Nat.zero_mod]

/-- C14, witness: the image of width 0 and height 3. -/
theorem SaveBMP_empty_image_witness :
    ((Image.uniform 0 3 Color.Black (by decide) (by decide)).width = 0 ∨
      (Image.uniform 0 3 Color.Black (by decide) (by decide)).height = 0) ∧
    0 ≤ GetBMPStride (Image.uniform 0 3 Color.Black (by decide) (by decide)).width ∧
    ∃ saved, SaveBMP (some unlimited) (fun _ => 0)
        (Image.uniform 0 3 Color.Black (by decide) (by decide)) = some saved ∧
      saved.ok = true ∧ saved.written.length = 54 ∧ fieldAt saved.written 34 4 = 0 :=
  ⟨by decide, by decide,
    SaveBMP_empty_image (fun _ => 0) (Image.uniform 0 3 Color.Black (by decide) (by decide))
      (by decide) (by decide)⟩

/-- C14, counterexample: the image of width 715827882 and height 0 has no
pixel, but `GetBMPStride` returns a negative stride for its width, the row
buffer cannot be allocated and `SaveBMP` does not return. -/
theorem SaveBMP_empty_image_overflow :
    (Image.uniform 715827882 0 Color.Black (by decide) (by decide)).height = 0 ∧
    SaveBMP (some unlimited) (fun _ => 0)
      (Image.uniform 715827882 0 Color.Black (by decide) (by decide)) = none := by
  decide

/-- C16 (amended): for every image of width `w ≤ 715827881` and height `h` and
every stored row `k < h`, each of the `GetBMPStride w - 3 * w` bytes of the
output of `SaveBMP` at the offsets `54 + k * stride + 3 * w` up to
`54 + (k + 1) * stride - 1` is 0: the row buffer is zero-initialised once and
only its first `3 * w` bytes are ever overwritten. -/
theorem SaveBMP_pad_zero (reserved : Fin 4 → Byte) (image : Image)
    (hw : image.width ≤ 715827881) :
    ∃ saved, SaveBMP (some unlimited) reserved image = some saved ∧
      ∀ k j, k < image.height → 3 * image.width ≤ j → j < (GetBMPStride image.width).toNat →
        saved.written[54 + k * (GetBMPStride image.width).toNat + j]? = some 0 := by
  obtain ⟨data, hs, _, hg⟩ := SaveBMP_eq unlimited reserved image (fun _ => rfl) hw
  refine ⟨_, hs, fun k j hk hj1 hj2 => ?_⟩
  rw [GetBMPStride_toNat image.width hw] at hj2 ⊢
  have e := hg (image.height - 1 - k) (by omega) j hj2
  rw [show image.height - 1 - (image.height - 1 - k) = k by omega, if_neg (by omega)] at e
  rw [Nat.add_assoc, getElem?_header_append, e]

/-- C16, witness: the 1x2 image with row 0 red and row 1 blue, whose rows have
one pad byte each. -/
theorem SaveBMP_pad_zero_witness :
    redOverBlue.width ≤ 715827881 ∧
    ∃ saved, SaveBMP (some unlimited) (fun _ => 0) redOverBlue = some saved ∧
      ∀ k j, k < redOverBlue.height → 3 * redOverBlue.width ≤ j →
        j < (GetBMPStride redOverBlue.width).toNat →
        saved.written[54 + k * (GetBMPStride redOverBlue.width).toNat + j]? = some 0 :=
  ⟨by decide, SaveBMP_pad_zero (fun _ => 0) redOverBlue (by decide)⟩

/-- C16, counterexample: for the green image of width 715827882 and height 1
the stride computed by `GetBMPStride` is negative, the row buffer cannot be
allocated and `SaveBMP` does not return: no pad byte is written. -/
theorem SaveBMP_pad_zero_overflow :
    ¬ ∃ saved, SaveBMP (some unlimited) (fun _ => 0)
        (Image.uniform 715827882 1 ⟨0, 255, 0⟩ (by decide) (by decide)) = some saved ∧
      ∀ k j, k < 1 → 3 * 715827882 ≤ j → j < (GetBMPStride 715827882).toNat →
        saved.written[54 + k * (GetBMPStride 715827882).toNat + j]? = some 0 := by
  have e : SaveBMP (some unlimited) (fun _ => 0)
      (Image.uniform 715827882 1 ⟨0, 255, 0⟩ (by decide) (by decide)) = none := by decide
  rw [e]
  rintro ⟨saved, h, _⟩
  exact absurd h (by simp)

theorem LoadBMP_nonpositive (seek : Bool) (content : List Byte)
    (h : toI32 (fieldAt content 18 4) ≤ 0 ∨ toI32 (fieldAt content 22 4) ≤ 0) :
    LoadBMP seek (some content) = some Image.empty := by
  rw [LoadBMP_unfold]
  split_ifs <;> rfl

/-- C20 (amended): for every image whose width is 0 or whose height is 0, and
for whose width `GetBMPStride` is not negative (as it is for every width up to
715827881), `LoadBMP` applied to the output of `SaveBMP` returns the designated
empty image, the value it also returns on failure. -/
theorem LoadBMP_SaveBMP_empty (reserved : Fin 4 → Byte) (seek : Bool) (image : Image)
    (hz : image.width = 0 ∨ image.height = 0) (hs : 0 ≤ GetBMPStride image.width) :
    ∃ saved, SaveBMP (some unlimited) reserved image = some saved ∧ saved.ok = true ∧
      LoadBMP seek (some saved.written) = some Image.empty := by
  by_cases hh : image.height = 0
  · refine ⟨_, SaveBMP_zero_height reserved image hh hs, rfl, ?_⟩
    have f := (SaveBMP.header_fields reserved image.width 0 []).2.2.2.2.2.1
    rw [List.append_nil] at f
    apply LoadBMP_nonpositive
    right
    show toI32 (fieldAt (SaveBMP.header reserved image.width 0) 22 4) ≤ 0
    rw [f, toI32_wrapU32_natCast 0 (by decide)]
    decide
  · have hw : image.width = 0 := by
      rcases hz with h | h
      · exact h
      · exact absurd h hh
    obtain ⟨data, hsv, _, _⟩ := SaveBMP_eq unlimited reserved image (fun _ => rfl) (by omega)
    refine ⟨_, hsv, rfl, ?_⟩
    apply LoadBMP_nonpositive
    left
    show toI32 (fieldAt (SaveBMP.header reserved image.width image.height ++ data) 18 4) ≤ 0
    rw [(SaveBMP.header_fields reserved image.width image.height data).2.2.2.2.1, hw,
      toI32_wrapU32_natCast 0 (by decide)]
    decide

/-- C20, witness: the image of width 4 and height 0. -/
theorem LoadBMP_SaveBMP_empty_witness :
    ((Image.uniform 4 0 Color.Black (by decide) (by decide)).width = 0 ∨
      (Image.uniform 4 0 Color.Black (by decide) (by decide)).height = 0) ∧
    0 ≤ GetBMPStride (Image.uniform 4 0 Color.Black (by decide) (by decide)).width ∧
    ∃ saved, SaveBMP (some unlimited) (fun _ => 0)
        (Image.uniform 4 0 Color.Black (by decide) (by decide)) = some saved ∧
      saved.ok = true ∧ LoadBMP true (some saved.written) = some Image.empty :=
  ⟨by decide, by decide,
    LoadBMP_SaveBMP_empty (fun _ => 0) true
      (Image.uniform 4 0 Color.Black (by decide) (by decide)) (by decide) (by decide)⟩

/-- C20, counterexample: the image of width 715827882 and height 0 has no
pixel, but `SaveBMP` does not return for it (the stride computed by
`GetBMPStride` is negative and the row buffer cannot be allocated), so there is
no output that `LoadBMP` could turn into the empty image. -/
theorem LoadBMP_SaveBMP_empty_overflow :
    (Image.uniform 715827882 0 ⟨1, 2, 3⟩ (by decide) (by decide)).height = 0 ∧
    ¬ ∃ saved, SaveBMP (some unlimited) (fun _ => 0)
        (Image.uniform 715827882 0 ⟨1, 2, 3⟩ (by decide) (by decide)) = some saved ∧
      LoadBMP true (some saved.written) = some Image.empty := by
  have e : SaveBMP (some unlimited) (fun _ => 0)
      (Image.uniform 715827882 0 ⟨1, 2, 3⟩ (by decide) (by decide)) = none := by decide
  refine ⟨rfl, ?_⟩
  rw [e]
  rintro ⟨saved, h, _⟩
  exact absurd h (by simp)

/-! ## The decoder and the data offset -/

/-- C11 (amended): for every byte stream whose declared data offset (4 bytes at
offset 10) points past the end of the stream, `LoadBMP` returns the empty
image, provided the declared width is at most 715827881 or the stream of the
platform refuses to seek past the end of a file. -/
theorem LoadBMP_offset_past_end (seek : Bool) (content : List Byte)
    (hoff : content.length < fieldAt content 10 4)
    (hw : seek = false ∨ toI32 (fieldAt content 18 4) ≤ 715827881) :
    LoadBMP seek (some content) = some Image.empty := by
  rw [LoadBMP_unfold]
  by_cases c1 : content.length < 14 ∨ fieldAt content 0 2 ≠ 0x4D42
  · rw [if_pos c1]
  rw [if_neg c1]
  by_cases c2 : content.length < 54 ∨ fieldAt content 28 2 ≠ 24
  · rw [if_pos c2]
  rw [if_neg c2]
  by_cases c3 : ¬ (fieldAt content 10 4 ≤ content.length ∨ seek = true)
  · rw [if_pos c3]
  rw [if_neg c3]
  by_cases c4 : toI32 (fieldAt content 18 4) ≤ 0 ∨ toI32 (fieldAt content 22 4) ≤ 0
  · rw [if_pos c4]
  rw [if_neg c4]
  have hseek : seek = true := by
    rcases not_not.mp c3 with h | h
    · omega
    · exact h
  have hwb : toI32 (fieldAt content 18 4) ≤ 715827881 := by
    rcases hw with h | h
    · rw [hseek] at h; exact absurd h (by decide)
    · exact h
  obtain ⟨w, hwf⟩ := Int.eq_ofNat_of_zero_le (show 0 ≤ toI32 (fieldAt content 18 4) by omega)
  obtain ⟨h, hhf⟩ := Int.eq_ofNat_of_zero_le (show 0 ≤ toI32 (fieldAt content 22 4) by omega)
  rw [hwf] at hwb c4 ⊢
  rw [hhf] at c4 ⊢
  have hwn : w ≤ 715827881 := by exact_mod_cast hwb
  have hpos : 0 < h * (4 * ((w * 3 + 3) / 4)) := by
    have hw0n : 0 < w := by omega
    have hh0n : 0 < h := by omega
    exact Nat.mul_pos hh0n (by omega)
  rw [GetBMPStride_natCast w hwn, if_neg (by omega)]
  simp only [Int.toNat_ofNat]
  exact LoadBMP.rows_truncated content seek w (4 * ((w * 3 + 3) / 4)) (by omega) h
    (fieldAt content 10 4) 40 _ (by omega)

/-- C11, witness: a file of 62 bytes that declares the data offset 200. -/
theorem LoadBMP_offset_past_end_witness :
    farOffsetFile.length < fieldAt farOffsetFile 10 4 ∧
    (true = false ∨ toI32 (fieldAt farOffsetFile 18 4) ≤ 715827881) ∧
    LoadBMP true (some farOffsetFile) = some Image.empty :=
  ⟨by decide, by decide, LoadBMP_offset_past_end true farOffsetFile (by decide) (by decide)⟩

/-- C11, counterexample: a file of 54 bytes with valid headers that declares
the data offset 100, the width 715827882 and the height 1. Where the stream
accepts a seek past the end of the file, `LoadBMP` goes on to allocate its row
buffer with the negative stride that `GetBMPStride` returns, and does not
return the empty image. -/
theorem LoadBMP_offset_past_end_overflow :
    farOffsetWideFile.length < fieldAt farOffsetWideFile 10 4 ∧
    LoadBMP true (some farOffsetWideFile) = none := by
  refine ⟨by decide, ?_⟩
  rw [LoadBMP_unfold, if_neg (by decide), if_neg (by decide), if_neg (by decide),
    if_neg (by decide), if_pos (by decide)]

/-! ## The value returned by the encoder -/

/-- The outer loop of `SaveBMP` runs to its end on any stream, whether or not
the stream takes the writes. -/
theorem SaveBMP.rows_returns (image : Image) (S : Nat) (hS : image.width * 3 ≤ S) (n : Nat) :
    ∀ (buffer : List Byte) (ofs : OFStream), buffer.length = S →
      ∃ ofs1, SaveBMP.rows image n buffer ofs = some ofs1 := by
  induction n with
  | zero => intro buffer ofs _; exact ⟨ofs, rfl⟩
  | succ n ih =>
    intro buffer ofs hlen
    obtain ⟨b1, hb1, hl1, _⟩ := SaveBMP.fill_writes (image.pixels n) image.width 0 buffer
      (by omega)
    obtain ⟨ofs1, h1⟩ := ih b1 (ofs.write b1) (by omega)
    exact ⟨ofs1, by rw [SaveBMP.rows, hb1, Option.some_bind, h1]⟩

/-- C12 (amended): `SaveBMP` returns `false` when the sink cannot be opened;
once the sink is open it returns `true` (for every width up to 715827881),
whether or not the writes of the file header, the info header and the pixel
rows complete: it does not look at the state of the stream after a write. -/
theorem SaveBMP_return_value (reserved : Fin 4 → Byte) (image : Image) :
    SaveBMP none reserved image = some ⟨false, []⟩ ∧
    ∀ device : Nat → Bool, image.width ≤ 715827881 →
      ∃ saved, SaveBMP (some device) reserved image = some saved ∧ saved.ok = true := by
  refine ⟨rfl, fun device hw => ?_⟩
  have e2 : ¬ (((4 * ((image.width * 3 + 3) / 4) : Nat) : Int) < 0) := by omega
  simp only [SaveBMP, GetBMPStride_natCast image.width hw]
  rw [if_neg e2, Int.toNat_ofNat]
  obtain ⟨ofs1, h1⟩ := SaveBMP.rows_returns image (4 * ((image.width * 3 + 3) / 4)) (by omega)
    image.height (List.replicate (4 * ((image.width * 3 + 3) / 4)) 0)
    ((OFStream.write
      (OFStream.write { accepts := device }
        (BitmapFileHeader.toBytes
          { file_size := wrapU32 (((BitmapFileHeader.sizeof + BitmapInfoHeader.sizeof : Nat) : Int)
              + wrapI32 (((4 * ((image.width * 3 + 3) / 4) : Nat) : Int) * (image.height : Int))),
            reserved := reserved,
            padding := BitmapFileHeader.sizeof + BitmapInfoHeader.sizeof }))
      (BitmapInfoHeader.toBytes
        { img_width := image.width, img_height := image.height,
          data_size := wrapU32
            (wrapI32 (((4 * ((image.width * 3 + 3) / 4) : Nat) : Int) * (image.height : Int))) })))
    (by simp)
  exact ⟨⟨true, ofs1.data⟩, by rw [h1]; rfl, rfl⟩

/-- C12, witness: the 1x2 image on a device that has room for the headers
only. -/
theorem SaveBMP_return_value_witness :
    redOverBlue.width ≤ 715827881 ∧
    ∃ saved, SaveBMP (some headersOnly) (fun _ => 0) redOverBlue = some saved ∧
      saved.ok = true :=
  ⟨by decide, (SaveBMP_return_value (fun _ => 0) redOverBlue).2 headersOnly (by decide)⟩

/-- C12, counterexample: on a device that accepts no write at all the very
first write, that of the file header, fails and sets `badbit`, nothing reaches
the file, and `SaveBMP` returns `true`; on a device with room for the 54 header
bytes only, every write of a pixel row fails and `SaveBMP` returns `true`. -/
theorem SaveBMP_return_value_unchecked :
    (OFStream.write { accepts := full }
      (BitmapFileHeader.toBytes { file_size := 62, reserved := fun _ => 0, padding := 54 })).badbit
      = true ∧
    SaveBMP (some full) (fun _ => 0) redOverBlue = some ⟨true, []⟩ ∧
    SaveBMP (some headersOnly) (fun _ => 0) redOverBlue
      = some ⟨true, SaveBMP.header (fun _ => 0) 1 2⟩ := by
  decide

/-! ## What the decoder does not look at -/

theorem LoadBMP.fill_congr (bufA bufB : List Byte) (y n : Nat) :
    ∀ (x : Nat) (result : Image), (∀ i, i < (x + n) * 3 → bufA[i]? = bufB[i]?) →
      LoadBMP.fill bufA y n x result = LoadBMP.fill bufB y n x result := by
  induction n with
  | zero => intro x result _; rfl
  | succ n ih =>
    intro x result h
    rw [LoadBMP.fill, LoadBMP.fill, h (x * 3 + 0) (by omega), h (x * 3 + 1) (by omega),
      h (x * 3 + 2) (by omega)]
    cases bufB[x * 3 + 0]? with
    | none => rfl
    | some vb =>
      cases bufB[x * 3 + 1]? with
      | none => rfl
      | some vg =>
        cases bufB[x * 3 + 2]? with
        | none => rfl
        | some vr =>
          simp only [Option.some_bind]
          exact ih (x + 1) _ (fun i hi => h i (by omega))

theorem IFStream.read_mk_full (content : List Byte) (seek : Bool) (p g n : Nat)
    (h : ¬ ((content.drop p).take n).length < n) :
    IFStream.read
        { file := content, seekBeyondEnd := seek, pos := p, failbit := false,
          eofbit := false, gcount := g } n
      = ((content.drop p).take n,
        { file := content, seekBeyondEnd := seek, pos := p + n,
          failbit := false, eofbit := false, gcount := n }) := by
  simp only [IFStream.read, Bool.or_self, Bool.false_eq_true, if_false, h]

theorem IFStream.read_mk_short (content : List Byte) (seek : Bool) (p g n : Nat)
    (h : ((content.drop p).take n).length < n) :
    (IFStream.read
        { file := content, seekBeyondEnd := seek, pos := p, failbit := false,
          eofbit := false, gcount := g } n).2.gcount < n := by
  simp only [IFStream.read, Bool.or_self, Bool.false_eq_true, if_false, h, if_true]

/-- The outer loop of `LoadBMP` gives the same result on two files of the same
length that agree on the pixel bytes of the rows it reads. -/
theorem LoadBMP.rows_congr (a b : List Byte) (seek : Bool) (width S : Nat)
    (hlen : a.length = b.length) (n : Nat) :
    ∀ (p g : Nat) (result : Image),
      (∀ k j, k < n → j < 3 * width → j < S → a[p + k * S + j]? = b[p + k * S + j]?) →
      LoadBMP.rows width S n
          { file := a, seekBeyondEnd := seek, pos := p, failbit := false,
            eofbit := false, gcount := g } result
        = LoadBMP.rows width S n
          { file := b, seekBeyondEnd := seek, pos := p, failbit := false,
            eofbit := false, gcount := g } result := by
  induction n with
  | zero => intro p g result _; rfl
  | succ n ih =>
    intro p g result h
    have hl : ((b.drop p).take S).length = ((a.drop p).take S).length := by
      simp only [List.length_take, List.length_drop, hlen]
    by_cases c : ((a.drop p).take S).length < S
    · rw [LoadBMP.rows, LoadBMP.rows, if_pos (IFStream.read_mk_short a seek p g S c),
        if_pos (IFStream.read_mk_short b seek p g S (by rw [hl]; exact c))]
    · rw [LoadBMP.rows, LoadBMP.rows, IFStream.read_mk_full a seek p g S c,
        IFStream.read_mk_full b seek p g S (by rw [hl]; exact c)]
      dsimp only
      rw [if_neg (Nat.lt_irrefl S), if_neg (Nat.lt_irrefl S)]
      have hf : LoadBMP.fill ((a.drop p).take S) n width 0 result
          = LoadBMP.fill ((b.drop p).take S) n width 0 result := by
        apply LoadBMP.fill_congr
        intro i hi
        rw [List.getElem?_take, List.getElem?_take, List.getElem?_drop, List.getElem?_drop]
        by_cases ci : i < S
        · rw [if_pos ci, if_pos ci]
          have := h 0 i (by omega) (by omega) ci
          rwa [Nat.zero_mul, Nat.add_zero] at this
        · rw [if_neg ci, if_neg ci]
      rw [hf]
      cases LoadBMP.fill ((b.drop p).take S) n width 0 result with
      | none => rfl
      | some r1 =>
        simp only [Option.some_bind]
        apply ih (p + S) S r1
        intro k j hk hj1 hj2
        have := h (k + 1) j (by omega) hj1 hj2
        rwa [Nat.succ_mul, show p + (k * S + S) + j = p + S + k * S + j by omega] at this

theorem fieldAt_congr (a b : List Byte) (off k : Nat)
    (h : ∀ i, i < k → a.getD (off + i) 0 = b.getD (off + i) 0) :
    fieldAt a off k = fieldAt b off k := by
  unfold fieldAt
  congr 1
  apply List.map_congr_left
  intro i hi
  exact h i (List.mem_range.mp hi)

theorem getElem?_eq_of_getD (a b : List Byte) (q : Nat) (hlen : a.length = b.length)
    (h : a.getD q 0 = b.getD q 0) : a[q]? = b[q]? := by
  by_cases c : q < a.length
  · rw [getElem?_eq_some_getD a q c, getElem?_eq_some_getD b q (by omega), h]
  · rw [List.getElem?_eq_none (by omega), List.getElem?_eq_none (by omega)]

/-- Two files of the same length that agree on the five header fields that
`LoadBMP` reads and on the pixel bytes of the rows that the fields declare are
decoded alike. -/
theorem LoadBMP_congr (seek : Bool) (a b : List Byte) (hlen : a.length = b.length)
    (h0 : fieldAt a 0 2 = fieldAt b 0 2) (h10 : fieldAt a 10 4 = fieldAt b 10 4)
    (h18 : fieldAt a 18 4 = fieldAt b 18 4) (h22 : fieldAt a 22 4 = fieldAt b 22 4)
    (h28 : fieldAt a 28 2 = fieldAt b 28 2)
    (hrows : ∀ k j, k < (toI32 (fieldAt a 22 4)).toNat →
      j < 3 * (toI32 (fieldAt a 18 4)).toNat →
      j < (GetBMPStride (toI32 (fieldAt a 18 4))).toNat →
      a[fieldAt a 10 4 + k * (GetBMPStride (toI32 (fieldAt a 18 4))).toNat + j]?
        = b[fieldAt a 10 4 + k * (GetBMPStride (toI32 (fieldAt a 18 4))).toNat + j]?) :
    LoadBMP seek (some a) = LoadBMP seek (some b) := by
  rw [LoadBMP_unfold, LoadBMP_unfold, ← h0, ← h10, ← h18, ← h22, ← h28, ← hlen,
    LoadBMP.rows_congr a b seek _ _ hlen _ _ 40 _ hrows]

theorem ignoredByte_eq_false (i : Nat)
    (h : i < 2 ∨ (10 ≤ i ∧ i < 14) ∨ (18 ≤ i ∧ i < 26) ∨ (28 ≤ i ∧ i < 30) ∨ 54 ≤ i) :
    ignoredByte i = false := by
  unfold ignoredByte
  rw [decide_eq_false_iff_not]
  omega

/-- C17 (amended): for every two byte streams that differ only in the
file-size, reserved, info-header-size, planes, compression, image-data-size,
resolution or colour-count header fields, and whose declared data offset is at
least 54, `LoadBMP` returns the same result on both. In particular such a
stream that declares a compression method other than 0 is decoded exactly as if
it declared 0. -/
theorem LoadBMP_ignores_fields (seek : Bool) (a b : List Byte) (hlen : a.length = b.length)
    (hdiff : ∀ i, ignoredByte i = false → a.getD i 0 = b.getD i 0)
    (hoff : 54 ≤ fieldAt a 10 4) :
    LoadBMP seek (some a) = LoadBMP seek (some b) := by
  apply LoadBMP_congr seek a b hlen
  · exact fieldAt_congr a b 0 2 fun i hi => hdiff _ (ignoredByte_eq_false _ (by omega))
  · exact fieldAt_congr a b 10 4 fun i hi => hdiff _ (ignoredByte_eq_false _ (by omega))
  · exact fieldAt_congr a b 18 4 fun i hi => hdiff _ (ignoredByte_eq_false _ (by omega))
  · exact fieldAt_congr a b 22 4 fun i hi => hdiff _ (ignoredByte_eq_false _ (by omega))
  · exact fieldAt_congr a b 28 2 fun i hi => hdiff _ (ignoredByte_eq_false _ (by omega))
  · intro k j _ _ _
    exact getElem?_eq_of_getD a b _ hlen (hdiff _ (ignoredByte_eq_false _ (by omega)))

theorem getD_set_of_ne (bs : List Byte) (p i : Nat) (v : Byte) (h : i ≠ p) :
    (bs.set p v).getD i 0 = bs.getD i 0 := by
  rw [List.getD_eq_getElem?_getD, List.getD_eq_getElem?_getD, List.getElem?_set,
    if_neg (fun e => h e.symm)]

/-- C17, witness: a file of 62 bytes and the same file declaring the
compression method 1. -/
theorem LoadBMP_ignores_fields_witness :
    smallFile.length = compressedFile.length ∧
    (∀ i, ignoredByte i = false → smallFile.getD i 0 = compressedFile.getD i 0) ∧
    54 ≤ fieldAt smallFile 10 4 ∧
    fieldAt smallFile 30 4 = 0 ∧ fieldAt compressedFile 30 4 = 1 ∧
    LoadBMP true (some smallFile) = LoadBMP true (some compressedFile) :=
  have hdiff : ∀ i, ignoredByte i = false → smallFile.getD i 0 = compressedFile.getD i 0 :=
    fun i hi => by
      by_cases c : i = 30
      · subst c; exact absurd hi (by decide)
      · exact (getD_set_of_ne smallFile 30 i 1 c).symm
  ⟨by decide, hdiff, by decide, by decide, by decide,
    LoadBMP_ignores_fields true smallFile compressedFile (by decide) hdiff (by decide)⟩

/-- C17, counterexample: two files of 62 bytes that declare the data offset 30,
the offset of the compression field, and differ only in that field, which is 0
in one and 1 in the other. The compression field is then the blue channel of
the pixel `(0, 1)`: `LoadBMP` returns an image on both, with blue 0 at that
pixel for one file and blue 1 for the other. -/
theorem LoadBMP_ignores_fields_overlap :
    overlapFile.length = overlapCompressedFile.length ∧
    (∀ i, ignoredByte i = false → overlapFile.getD i 0 = overlapCompressedFile.getD i 0) ∧
    fieldAt overlapFile 30 4 = 0 ∧ fieldAt overlapCompressedFile 30 4 = 1 ∧
    (LoadBMP true (some overlapFile)).map (fun img => (img.pixels 1 0).b) = some 0 ∧
    (LoadBMP true (some overlapCompressedFile)).map (fun img => (img.pixels 1 0).b) = some 1 ∧
    LoadBMP true (some overlapFile) ≠ LoadBMP true (some overlapCompressedFile) := by
  have hdiff : ∀ i, ignoredByte i = false →
      overlapFile.getD i 0 = overlapCompressedFile.getD i 0 := fun i hi => by
    by_cases c : i = 30
    · subst c; exact absurd hi (by decide)
    · exact (getD_set_of_ne overlapFile 30 i 1 c).symm
  have pa : (LoadBMP true (some overlapFile)).map (fun img => (img.pixels 1 0).b) = some 0 := by
    decide
  have pb : (LoadBMP true (some overlapCompressedFile)).map (fun img => (img.pixels 1 0).b)
      = some 1 := by decide
  refine ⟨by decide, hdiff, by decide, by decide, pa, pb, fun e => ?_⟩
  rw [e, pb] at pa
  exact absurd pa (by decide)

theorem padByte_eq_false_of_lt (content : List Byte) (i : Nat) (h : i < 54)
    (hoff : 54 ≤ fieldAt content 10 4) : padByte content i = false := by
  unfold padByte
  simp only [decide_eq_false_iff_not]
  omega

theorem padByte_eq_false_of_pixel (content : List Byte) (k j : Nat)
    (hj1 : j < 3 * (toI32 (fieldAt content 18 4)).toNat)
    (hj2 : j < (GetBMPStride (toI32 (fieldAt content 18 4))).toNat) :
    padByte content
      (fieldAt content 10 4 + k * (GetBMPStride (toI32 (fieldAt content 18 4))).toNat + j)
      = false := by
  unfold padByte
  simp only [decide_eq_false_iff_not]
  rintro ⟨_, _, _, hmod⟩
  rw [Nat.add_assoc, Nat.add_sub_cancel_left, Nat.add_comm, Nat.add_mul_mod_self_right,
    Nat.mod_eq_of_lt hj2] at hmod
  omega

/-- C15 (amended): the decoder discards pad bytes: for every two byte streams
(of the same length) whose declared data offset is at least 54 and that are
equal everywhere except in the trailing `stride - 3 * width` pad bytes of their
pixel rows, `LoadBMP` returns the same result on both. -/
theorem LoadBMP_ignores_padding (seek : Bool) (a b : List Byte) (hlen : a.length = b.length)
    (hdiff : ∀ i, padByte a i = false → a.getD i 0 = b.getD i 0)
    (hoff : 54 ≤ fieldAt a 10 4) :
    LoadBMP seek (some a) = LoadBMP seek (some b) := by
  apply LoadBMP_congr seek a b hlen
  · exact fieldAt_congr a b 0 2 fun i hi =>
      hdiff _ (padByte_eq_false_of_lt a _ (by omega) hoff)
  · exact fieldAt_congr a b 10 4 fun i hi =>
      hdiff _ (padByte_eq_false_of_lt a _ (by omega) hoff)
  · exact fieldAt_congr a b 18 4 fun i hi =>
      hdiff _ (padByte_eq_false_of_lt a _ (by omega) hoff)
  · exact fieldAt_congr a b 22 4 fun i hi =>
      hdiff _ (padByte_eq_false_of_lt a _ (by omega) hoff)
  · exact fieldAt_congr a b 28 2 fun i hi =>
      hdiff _ (padByte_eq_false_of_lt a _ (by omega) hoff)
  · intro k j _ hj1 hj2
    exact getElem?_eq_of_getD a b _ hlen (hdiff _ (padByte_eq_false_of_pixel a k j hj1 hj2))

/-- C15, witness: a file of 62 bytes that holds a 1x2 image, and the same file
with the pad byte of its first stored row changed from 0 to 0xAA. -/
theorem LoadBMP_ignores_padding_witness :
    smallFile.length = otherPadFile.length ∧
    (∀ i, padByte smallFile i = false → smallFile.getD i 0 = otherPadFile.getD i 0) ∧
    54 ≤ fieldAt smallFile 10 4 ∧
    smallFile.getD 57 0 ≠ otherPadFile.getD 57 0 ∧
    LoadBMP true (some smallFile) = LoadBMP true (some otherPadFile) :=
  have hdiff : ∀ i, padByte smallFile i = false → smallFile.getD i 0 = otherPadFile.getD i 0 :=
    fun i hi => by
      by_cases c : i = 57
      · subst c; exact absurd hi (by decide)
      · exact (getD_set_of_ne smallFile 57 i 0xAA c).symm
  ⟨by decide, hdiff, by decide, by decide,
    LoadBMP_ignores_padding true smallFile otherPadFile (by decide) hdiff (by decide)⟩

/-- C15, counterexample: two files of 58 bytes that declare a 1x1 image with
24 bits per pixel and the data offset 25. The one row of four bytes is then
the bytes 25 to 28, and its pad byte, byte 28, is the low byte of the
bits-per-pixel field. The files differ in that byte only (24 in one, 8 in the
other), which is a pad byte of the row of either file: `LoadBMP` returns a 1x1
image for the first and the empty image for the second. -/
theorem LoadBMP_ignores_padding_overlap :
    overlapPadFile.length = overlapOtherPadFile.length ∧
    (∀ i, padByte overlapPadFile i = false →
      overlapPadFile.getD i 0 = overlapOtherPadFile.getD i 0) ∧
    padByte overlapPadFile 28 = true ∧ padByte overlapOtherPadFile 28 = true ∧
    overlapPadFile.getD 28 0 = 24 ∧ overlapOtherPadFile.getD 28 0 = 8 ∧
    (LoadBMP true (some overlapPadFile)).map (fun img => (img.width, img.height))
      = some (1, 1) ∧
    (LoadBMP true (some overlapOtherPadFile)).map (fun img => (img.width, img.height))
      = some (0, 0) ∧
    LoadBMP true (some overlapPadFile) ≠ LoadBMP true (some overlapOtherPadFile) := by
  have hdiff : ∀ i, padByte overlapPadFile i = false →
      overlapPadFile.getD i 0 = overlapOtherPadFile.getD i 0 := fun i hi => by
    by_cases c : i = 28
    · subst c; exact absurd hi (by decide)
    · exact (getD_set_of_ne overlapPadFile 28 i 8 c).symm
  have pa : (LoadBMP true (some overlapPadFile)).map (fun img => (img.width, img.height))
      = some (1, 1) := by decide
  have pb : (LoadBMP true (some overlapOtherPadFile)).map (fun img => (img.width, img.height))
      = some (0, 0) := by decide
  refine ⟨by decide, hdiff, by decide, by decide, by decide, by decide, pa, pb, fun e => ?_⟩
  rw [e, pb] at pa
  exact absurd pa (by decide)

end img_lib
